import Mathlib

/-!
# Verification of the SQL autograder core

This file gives a shallow embedding, in Lean 4, of the grading core of the
`sql-autograder` repository (results aggregation, the LLM response
normalizer, the retry loop of the two grading backends, the submission
loader and the statistics validity filter), together with theorems
settling the specification claims about those components.

Conventions of the embedding:

* Python strings handled by the response normalizer are modelled as
  `List Char`; strings that are only stored (ids, names, feedback) are
  modelled as Lean `String`.
* Python floats are modelled as rationals (`ℚ`); Python's `round(x, 1)`
  is modelled as scaling by ten and rounding half to even.
* Python dicts are modelled as association lists; `dict.get(k, d)` is
  modelled by `lookupD`.
* Fallible Python code (code that may raise) is modelled with
  `Option`/`Except`; an `Except.error` that escapes a function models an
  exception propagating to the caller.
* The external HTTP calls made by the graders are modelled by oracles:
  a function from the attempt number to the observable outcome of that
  attempt (status, body, or raised exception).
-/

/-! ## Character and list utilities (Python string primitives) -/

/-- Characters treated as whitespace by Python's `str.strip()`. -/
def pyWsChar (c : Char) : Bool :=
  c = ' ' ∨ c = '\t' ∨ c = '\n' ∨ c = '\r' ∨ c.toNat = 11 ∨ c.toNat = 12

/-- Model of Python `str.lstrip()` on a character list. -/
def lstripL (l : List Char) : List Char := l.dropWhile pyWsChar

/-- Model of Python `str.rstrip()` on a character list. -/
def rstripL (l : List Char) : List Char := (l.reverse.dropWhile pyWsChar).reverse

/-- Model of Python `str.strip()` on a character list. -/
def pyStrip (l : List Char) : List Char := rstripL (lstripL l)

/-- Does `l` start with the pattern `pat`? (Python `str.startswith`.) -/
def startsWithL : List Char → List Char → Bool
  | [], _ => true
  | _ :: _, [] => false
  | p :: ps, c :: cs => p == c && startsWithL ps cs

/-- Does `l` end with the pattern `pat`? (Python `str.endswith`.) -/
def endsWithL (pat l : List Char) : Bool := startsWithL pat.reverse l.reverse

/-- Index of the first occurrence of `pat` in `l`, or `none`.
Models Python `str.find` (where absence is reported as `-1`). -/
def findSub : List Char → List Char → Option ℕ
  | pat, [] => if pat.isEmpty then some 0 else none
  | pat, c :: cs =>
    if startsWithL pat (c :: cs) then some 0
    else (findSub pat cs).map (· + 1)

/-- Model of Python's `in` operator on strings. -/
def containsSub (pat l : List Char) : Bool := (findSub pat l).isSome

/-- Model of the Python slice `l[start:stop]`. -/
def sliceL (l : List Char) (start stop : ℕ) : List Char :=
  (l.drop start).take (stop - start)

/-- Index of the last occurrence of the character `c` in `l`
(Python `str.rfind` for a single-character pattern). -/
def rfindChar (c : Char) (l : List Char) : Option ℕ :=
  (findSub [c] l.reverse).map (fun i => l.length - 1 - i)

/-! ## Decimal digits -/

/-- Value of a decimal digit character. -/
def digVal (c : Char) : ℕ := c.toNat - 48

/-- Is `c` a decimal digit? -/
def isDig (c : Char) : Bool := 48 ≤ c.toNat && c.toNat ≤ 57

/-- Digit character for a value below ten. -/
def digChar (d : ℕ) : Char := Char.ofNat (48 + d)

/-- Fuel-driven accumulator for `natChars`; the fuel makes the recursion
structural so that the kernel can evaluate it. -/
def natCharsF : ℕ → ℕ → List Char
  | 0, _ => []
  | f + 1, n => if n < 10 then [digChar n] else natCharsF f (n / 10) ++ [digChar (n % 10)]

/-- Decimal rendering of a natural number, mirroring Python `str(n)`. -/
def natChars (n : ℕ) : List Char := natCharsF (n + 1) n

/-- Value of a list of digit characters, most significant first. -/
def valOfDigits (ds : List Char) : ℕ := ds.foldl (fun a c => a * 10 + digVal c) 0

/-- Hexadecimal digit character for a value below sixteen (lower case). -/
def hexChar (d : ℕ) : Char := if d < 10 then digChar d else Char.ofNat (87 + d)

/-- Value of a hexadecimal digit character, or `none`. -/
def hexVal (c : Char) : Option ℕ :=
  if 48 ≤ c.toNat ∧ c.toNat ≤ 57 then some (c.toNat - 48)
  else if 97 ≤ c.toNat ∧ c.toNat ≤ 102 then some (c.toNat - 87)
  else if 65 ≤ c.toNat ∧ c.toNat ≤ 70 then some (c.toNat - 55)
  else none

/-! ## Association-list lookup (Python dict) -/

/-- Model of Python `d.get(k, default)` for a dict modelled as an
association list (keys are unique in every dict the program builds). -/
def lookupD {α : Type} (l : List (String × α)) (k : String) (d : α) : α :=
  match l.find? (fun p => p.1 == k) with
  | some p => p.2
  | none => d

/-- Model of the raising Python subscript `d[k]`: the value when the key
is present, `none` (a `KeyError`) otherwise. -/
def lookupOpt {α : Type} (l : List (String × α)) (k : String) : Option α :=
  match l.find? (fun p => p.1 == k) with
  | some p => some p.2
  | none => none

/-! ## Rounding (Python `round(x, 1)`) -/

/-- Round a rational to the nearest integer, ties to even, as Python's
builtin `round` does. -/
def roundHalfEven (x : ℚ) : ℤ :=
  if x - ⌊x⌋ < 1 / 2 then ⌊x⌋
  else if 1 / 2 < x - ⌊x⌋ then ⌊x⌋ + 1
  else if 2 ∣ ⌊x⌋ then ⌊x⌋ else ⌊x⌋ + 1

/-- Model of Python `round(x, 1)`. -/
def roundTo1 (x : ℚ) : ℚ := (roundHalfEven (10 * x) : ℚ) / 10

/-! ## Results processing (`sqlAutograder/results.py`)

`GradingResult` is the durable per-student record.  The Python dataclass
has one fixed group of six fields per question (`q4_1_query`, …); both
constructors below build those fields by iterating over the configured
question list, so the embedding keys the per-question group by the
question id. -/

/-- Per-question slice of a `GradingResult` (the six `q<n>_*` fields). -/
structure QuestionResult where
  query : String
  grader_score : ℚ
  llm_score : ℚ
  score_difference : ℚ
  feedback : String
  needs_review : Bool
deriving DecidableEq, Repr

/-- Grading result record for one student (`results.py`, `GradingResult`). -/
structure GradingResult where
  student_id : String
  student_name : String
  per_question : List (String × QuestionResult)
  total_llm_score : ℚ
  total_grader_score : ℚ
  total_score_difference : ℚ
deriving DecidableEq, Repr

/-- Per-question entry of the parsed LLM payload as `create_result_from_grading`
reads it: a dict whose keys `score`, `feedback` and `needs_review` may each be
absent (`dict.get` supplies the defaults). -/
structure QPayload where
  score : Option ℚ
  feedback : Option String
  needs_review : Option Bool
deriving DecidableEq, Repr

/-- Model of `q_num.replace(".", "_")`: for the single-character pattern
`"."`, Python's `str.replace` substitutes character by character. -/
def dotToUnderscore (q : String) : String :=
  String.mk (q.toList.map (fun c => if c = '.' then '_' else c))

/-- The payload key for a question id: `question_4_1` for `4.1`
(`f'question_{q_num.replace(".", "_")}'`). -/
def qKey (q : String) : String := "question_" ++ dotToUnderscore q

namespace ResultsProcessor

/-- Loop body of `create_result_from_grading`: one iteration of
`for q_num in questions`, carrying the two running totals and the
per-question fields built so far. -/
def gradeStep (queries : List (String × String)) (grader_scores : List (String × ℚ))
    (llm_result : List (String × QPayload))
    (acc : ℚ × ℚ × List (String × QuestionResult)) (q : String) :
    ℚ × ℚ × List (String × QuestionResult) :=
  let q_result := lookupD llm_result (qKey q) ⟨none, none, none⟩
  let llm_score := q_result.score.getD 0
  let grader_score := lookupD grader_scores q 0
  let score_diff := roundTo1 (llm_score - grader_score)
  (acc.1 + llm_score, acc.2.1 + grader_score,
    acc.2.2 ++ [(q, ⟨lookupD queries q "", grader_score, llm_score, score_diff,
      q_result.feedback.getD "", q_result.needs_review.getD false⟩)])

/-- Embedding of `ResultsProcessor.create_result_from_grading`
(`results.py`, lines 61–123). -/
def create_result_from_grading (student_id student_name : String)
    (queries : List (String × String)) (grader_scores : List (String × ℚ))
    (llm_result : List (String × QPayload)) (questions : List String) :
    GradingResult :=
  let acc := questions.foldl (gradeStep queries grader_scores llm_result) (0, 0, [])
  { student_id := student_id
    student_name := student_name
    per_question := acc.2.2
    total_llm_score := roundTo1 acc.1
    total_grader_score := acc.2.1
    total_score_difference := roundTo1 (acc.1 - acc.2.1) }

/-- Embedding of `ResultsProcessor.create_failed_result`
(`results.py`, lines 125–168). -/
def create_failed_result (student_id student_name : String)
    (queries : List (String × String)) (grader_scores : List (String × ℚ))
    (questions : List String) : GradingResult :=
  { student_id := student_id
    student_name := student_name
    per_question := questions.map (fun q =>
      (q, { query := lookupD queries q ""
            grader_score := lookupD grader_scores q 0
            llm_score := -1
            score_difference := -1
            feedback := "Grading failed - requires manual review"
            needs_review := true }))
    total_llm_score := -1
    total_grader_score := (grader_scores.map Prod.snd).sum
    total_score_difference := -1 }

end ResultsProcessor

/-! ## Submission loading (`sqlAutograder/data_loader.py`)

The loader reads a CSV with pandas.  A row is modelled by its identity
cells plus the response and score cells keyed by column name; `none`
models a pandas `NaN`.  Response cells are text, score cells numeric, as
in the graded CSVs the loader is written for.  The question-column
configuration `question_columns` maps a question id to the pair of its
response-column and score-column names; it is modelled as a list of
`(question id, response column, score column)` triples. -/

namespace SubmissionLoader

/-- One row of the submissions CSV. -/
structure CsvRow where
  student_id : String
  name : String
  resp : List (String × Option String)
  score : List (String × Option ℚ)
deriving DecidableEq

/-- Per-cell normalization of an answer (`get_submissions`, lines 99–103):
a missing or blank answer becomes the fixed sentinel string. -/
def normalizeQuery (c : Option String) : String :=
  match c with
  | none => "[NO ANSWER PROVIDED]"
  | some s => if s.trim = "" then "[NO ANSWER PROVIDED]" else s

/-- Result element of `get_submissions` (`StudentSubmission` dataclass). -/
structure StudentSubmission where
  student_id : String
  student_name : String
  queries : List (String × String)
  grader_scores : List (String × ℚ)
deriving DecidableEq

/-- Conversion of one CSV row into a `StudentSubmission`
(`get_submissions`, loop body, lines 91–111): missing scores become 0. -/
def rowToSubmission (qcols : List (String × String × String)) (r : CsvRow) :
    StudentSubmission :=
  { student_id := r.student_id
    student_name := r.name
    queries := qcols.map (fun qc => (qc.1, normalizeQuery (lookupD r.resp qc.2.1 none)))
    grader_scores := qcols.map (fun qc => (qc.1, (lookupD r.score qc.2.2 none).getD 0)) }

/-- Model of `pandas.DataFrame.head(m)`: the first `m` rows for `m ≥ 0`,
all but the last `|m|` rows for negative `m`. -/
def pyHead (m : ℤ) (rows : List CsvRow) : List CsvRow :=
  if 0 ≤ m then rows.take m.toNat else rows.take (rows.length - (-m).toNat)

/-- Embedding of `SubmissionLoader.get_submissions` (`data_loader.py`,
lines 75–113).  The Python guard is `if max_count`, so `None` and `0`
both select the whole frame. -/
def get_submissions (rows : List CsvRow) (qcols : List (String × String × String))
    (max_count : Option ℤ) : List StudentSubmission :=
  let df_to_process :=
    match max_count with
    | none => rows
    | some m => if m = 0 then rows else pyHead m rows
  df_to_process.map (rowToSubmission qcols)

/-- Helper loop of `validate_columns`: the per-question column checks
(`for q_num, cols in self.question_columns.items()`). -/
def validateQuestionCols (cols : List String) :
    List (String × String × String) → List String
  | [] => []
  | qc :: rest =>
    (if cols.contains qc.2.1 then [] else [qc.1 ++ " Response"]) ++
    (if cols.contains qc.2.2 then [] else [qc.1 ++ " Score"]) ++
    validateQuestionCols cols rest

/-- Embedding of `SubmissionLoader.validate_columns` (`data_loader.py`,
lines 48–73) for a loaded table with column list `cols`. -/
def validate_columns (cols : List String)
    (question_columns : List (String × String × String)) : List String :=
  (if cols.contains "Student ID" then [] else ["Student ID"]) ++
  (if cols.contains "Name" then [] else ["Name"]) ++
  validateQuestionCols cols question_columns

end SubmissionLoader

/-! ## Statistics validity filter (`sqlAutograder/statistics.py`) -/

namespace GradingStatistics

/-- Row of the results CSV as `load_and_validate` inspects it: the
question-4.1 model score (the whole-row failure sentinel) and the five
human grader scores; `none` models a missing value (pandas `NaN`). -/
structure ResultRow where
  q4_1_llm_score : Option ℚ
  q4_1_grader_score : Option ℚ
  q4_2_grader_score : Option ℚ
  q4_3_grader_score : Option ℚ
  q4_4_grader_score : Option ℚ
  q4_5_grader_score : Option ℚ
deriving DecidableEq

/-- The pandas filter `df['q4_1_llm_score'] >= 0`: a `NaN` comparison is
false, so a row with a missing sentinel is dropped too. -/
def sentinelPass (r : ResultRow) : Bool :=
  match r.q4_1_llm_score with
  | some v => decide (0 ≤ v)
  | none => false

/-- The `dropna` subset check: all five grader scores present. -/
def graderScoresPresent (r : ResultRow) : Bool :=
  r.q4_1_grader_score.isSome && r.q4_2_grader_score.isSome &&
  r.q4_3_grader_score.isSome && r.q4_4_grader_score.isSome &&
  r.q4_5_grader_score.isSome

/-- Embedding of the filtering in `GradingStatistics.load_and_validate`
(`statistics.py`, lines 24–48): first keep rows whose sentinel model
score is `≥ 0`, then drop rows with any missing grader score. -/
def load_and_validate (rows : List ResultRow) : List ResultRow :=
  (rows.filter sentinelPass).filter graderScoresPresent

end GradingStatistics

/-! ## JSON values and `json.loads`

The response normalizers end in `json.loads`.  JSON values are modelled
by `Json`; `json_loads` is a recursive-descent reading of the grammar
`json.loads` accepts (whitespace, `null`, booleans, numbers with optional
sign, fraction and exponent, strings with the eight short escapes and
`\uXXXX`, arrays, objects).  A failing parse models the
`json.JSONDecodeError` the Python parser raises.  The recursion is fuel
driven so that it is structural; the entry point supplies more fuel than
any input can consume. -/

inductive Json where
  | null : Json
  | bool : Bool → Json
  | num : ℚ → Json
  | str : List Char → Json
  | arr : List Json → Json
  | obj : List (List Char × Json) → Json

/-- Whitespace accepted between JSON tokens. -/
def jsonWs (c : Char) : Bool := c = ' ' || c = '\t' || c = '\n' || c = '\r'

/-- Skip inter-token whitespace. -/
def skipWs (l : List Char) : List Char := l.dropWhile jsonWs

/-- Decode one short escape character (`\"`, `\\`, `\/`, `\b`, `\f`,
`\n`, `\r`, `\t`). -/
def escDecode (e : Char) : Option Char :=
  if e = '"' then some '"'
  else if e = '\\' then some '\\'
  else if e = '/' then some '/'
  else if e = 'b' then some (Char.ofNat 8)
  else if e = 'f' then some (Char.ofNat 12)
  else if e = 'n' then some '\n'
  else if e = 'r' then some '\r'
  else if e = 't' then some '\t'
  else none

/-- Read a JSON string body (after the opening quote), returning the
decoded characters and the text after the closing quote.  A raw control
character or an unknown escape is an error, as in `json.loads`. -/
def parseStringBody : List Char → Option (List Char × List Char)
  | [] => none
  | c :: cs =>
    if c = '"' then some ([], cs)
    else if c = '\\' then
      match cs with
      | [] => none
      | e :: cs2 =>
        if e = 'u' then
          match cs2 with
          | a :: b :: c2 :: d :: cs3 =>
            (match hexVal a, hexVal b, hexVal c2, hexVal d with
             | some ha, some hb, some hc, some hd =>
               let code := ((ha * 16 + hb) * 16 + hc) * 16 + hd
               if code.isValidChar then
                 (parseStringBody cs3).map (fun p => (Char.ofNat code :: p.1, p.2))
               else none
             | _, _, _, _ => none)
          | _ => none
        else
          match escDecode e with
          | some ec => (parseStringBody cs2).map (fun p => (ec :: p.1, p.2))
          | none => none
    else if c.toNat < 32 then none
    else (parseStringBody cs).map (fun p => (c :: p.1, p.2))

/-- Longest digit run at the head of the text. -/
def spanDigits (l : List Char) : List Char × List Char := l.span isDig

/-- Integer part of a JSON number: `0`, or a nonzero digit followed by
digits (the grammar forbids other leading zeros). -/
def parseIntPart : List Char → Option (ℕ × List Char)
  | [] => none
  | c :: cs =>
    if c = '0' then some (0, cs)
    else
      match spanDigits (c :: cs) with
      | ([], _) => none
      | (ds, rest) => some (valOfDigits ds, rest)

/-- Optional fraction: consumed only when a `.` is followed by at least one
digit; returns the fraction value and its digit count. -/
def parseFrac : List Char → ℕ × ℕ × List Char
  | [] => (0, 0, [])
  | c :: cs =>
    if c = '.' then
      match spanDigits cs with
      | ([], _) => (0, 0, c :: cs)
      | (ds, rest) => (valOfDigits ds, ds.length, rest)
    else (0, 0, c :: cs)

/-- Digit run of an exponent; `orig` is returned when no digit follows. -/
def parseExpDigits (sign : Bool) (orig cs2 : List Char) : ℤ × List Char :=
  match spanDigits cs2 with
  | ([], _) => (0, orig)
  | (ds, rest) =>
    (if sign then -(valOfDigits ds : ℤ) else (valOfDigits ds : ℤ), rest)

/-- Optional exponent: consumed only when `e`/`E` (with optional sign) is
followed by at least one digit. -/
def parseExp : List Char → ℤ × List Char
  | [] => (0, [])
  | c :: cs =>
    if c = 'e' ∨ c = 'E' then
      match cs with
      | [] => (0, c :: cs)
      | e :: cs2 =>
        if e = '+' then parseExpDigits false (c :: cs) cs2
        else if e = '-' then parseExpDigits true (c :: cs) cs2
        else parseExpDigits false (c :: cs) (e :: cs2)
    else (0, c :: cs)

/-- Read a JSON number. -/
def parseNumber (l : List Char) : Option (ℚ × List Char) :=
  let sg : Bool × List Char :=
    match l with
    | [] => (false, [])
    | c :: cs => if c = '-' then (true, cs) else (false, c :: cs)
  match parseIntPart sg.2 with
  | none => none
  | some (ip, l2) =>
    let fr := parseFrac l2
    let ex := parseExp fr.2.2
    let mag : ℚ := ((ip : ℚ) + (fr.1 : ℚ) / ((10 : ℚ) ^ fr.2.1)) * (10 : ℚ) ^ ex.1
    some (if sg.1 then -mag else mag, ex.2)

mutual

/-- Read one JSON value, dispatching on the first non-blank character as
the `json` scanner does. -/
def parseValue : ℕ → List Char → Option (Json × List Char)
  | 0, _ => none
  | fuel + 1, l =>
    match skipWs l with
    | [] => none
    | c :: rest =>
      if c = '"' then (parseStringBody rest).map (fun p => (.str p.1, p.2))
      else if c = '{' then
        match skipWs rest with
        | '}' :: rest2 => some (.obj [], rest2)
        | _ => parseMembers fuel rest []
      else if c = '[' then
        match skipWs rest with
        | ']' :: rest2 => some (.arr [], rest2)
        | _ => parseElements fuel rest []
      else if c = 'n' then
        if startsWithL "ull".toList rest then some (.null, rest.drop 3) else none
      else if c = 't' then
        if startsWithL "rue".toList rest then some (.bool true, rest.drop 3) else none
      else if c = 'f' then
        if startsWithL "alse".toList rest then some (.bool false, rest.drop 4) else none
      else (parseNumber (c :: rest)).map (fun p => (.num p.1, p.2))

/-- Read the elements of a nonempty array (after the opening bracket). -/
def parseElements : ℕ → List Char → List Json → Option (Json × List Char)
  | 0, _, _ => none
  | fuel + 1, l, acc =>
    match parseValue fuel l with
    | none => none
    | some (v, rest) =>
      match skipWs rest with
      | ',' :: rest2 => parseElements fuel rest2 (acc ++ [v])
      | ']' :: rest2 => some (.arr (acc ++ [v]), rest2)
      | _ => none

/-- Read the members of a nonempty object (after the opening brace). -/
def parseMembers : ℕ → List Char → List (List Char × Json) →
    Option (Json × List Char)
  | 0, _, _ => none
  | fuel + 1, l, acc =>
    match skipWs l with
    | '"' :: rest =>
      (match parseStringBody rest with
       | none => none
       | some (k, rest2) =>
         match skipWs rest2 with
         | ':' :: rest3 =>
           (match parseValue fuel rest3 with
            | none => none
            | some (v, rest4) =>
              match skipWs rest4 with
              | ',' :: rest5 => parseMembers fuel rest5 (acc ++ [(k, v)])
              | '}' :: rest5 => some (.obj (acc ++ [(k, v)]), rest5)
              | _ => none)
         | _ => none)
    | _ => none

end

/-- Model of `json.loads`: parse one value and require only whitespace
after it. -/
def json_loads (l : List Char) : Option Json :=
  match parseValue (2 * l.length + 2) l with
  | some (v, rest) => if (skipWs rest).isEmpty then some v else none
  | none => none

/-! ## Response normalizers (`ollama_grader.py` and `grader.py`) -/

/-- Opening marker of a reasoning-trace block. -/
def thinkOpenPat : List Char := "<think>".toList

/-- Closing marker of a reasoning-trace block. -/
def thinkClosePat : List Char := "</think>".toList

/-- Marker of a structured-data fenced block. -/
def fenceJsonPat : List Char := "```json".toList

/-- Marker of a generic fenced block. -/
def fencePat : List Char := "```".toList

namespace OllamaGrader

/-- Removal loop of `re.sub(r'<think>.*?</think>', '', text, flags=DOTALL)`:
repeatedly drop the leftmost, shortest reasoning-trace block.  A `<think>`
with no later `</think>` matches nothing.  The fuel (at least the text
length) only bounds the recursion. -/
def strip_thinking_core : ℕ → List Char → List Char
  | 0, l => l
  | fuel + 1, l =>
    match findSub thinkOpenPat l with
    | none => l
    | some i =>
      match findSub thinkClosePat (l.drop (i + 7)) with
      | none => l
      | some j => l.take i ++ strip_thinking_core fuel (l.drop (i + 7 + j + 8))

/-- Embedding of `OllamaGrader._strip_thinking` (`ollama_grader.py`,
lines 42–54): remove reasoning-trace blocks, then strip whitespace. -/
def strip_thinking (l : List Char) : List Char :=
  pyStrip (strip_thinking_core l.length l)

/-- Embedding of `OllamaGrader._parse_response` (`ollama_grader.py`,
lines 56–94): strip reasoning traces, unwrap a fenced block when one is
present, strip, slice from the first `{` to the last `}` when that span
is nonempty, and parse. -/
def parse_response (response_text : List Char) : Option Json :=
  let cleaned := strip_thinking response_text
  let cleaned2 :=
    if containsSub fenceJsonPat cleaned then
      let s := (findSub fenceJsonPat cleaned).getD 0 + 7
      match findSub fencePat (cleaned.drop s) with
      | some e => sliceL cleaned s (s + e)
      | none => cleaned
    else if containsSub fencePat cleaned then
      let s := (findSub fencePat cleaned).getD 0 + 3
      match findSub fencePat (cleaned.drop s) with
      | some e => sliceL cleaned s (s + e)
      | none => cleaned
    else cleaned
  let cleaned3 := pyStrip cleaned2
  let cleaned4 :=
    match findSub ['{'] cleaned3, rfindChar '}' cleaned3 with
    | some fb, some lb => if fb < lb then sliceL cleaned3 fb (lb + 1) else cleaned3
    | _, _ => cleaned3
  json_loads cleaned4

end OllamaGrader

namespace GeminiGrader

/-- Embedding of `GeminiGrader._parse_response` (`grader.py`,
lines 74–100): strip, remove a leading fence tag and a trailing fence,
strip again, and parse. -/
def parse_response (response_text : List Char) : Option Json :=
  let cleaned := pyStrip response_text
  let cleaned2 :=
    if startsWithL fenceJsonPat cleaned then cleaned.drop 7
    else if startsWithL fencePat cleaned then cleaned.drop 3
    else cleaned
  let cleaned3 :=
    if endsWithL fencePat cleaned2 then cleaned2.take (cleaned2.length - 3)
    else cleaned2
  json_loads (pyStrip cleaned3)

end GeminiGrader

/-! ## Structured grading payloads and their serialization

The grading backends instruct the model to emit one JSON object per
question with a score, deduction details, feedback and a review flag
(`prompts.py`, output format section).  `dumpsPayload` is the clean JSON
serialization of such a payload (`json.dumps` with `ensure_ascii=False`:
compact separators, the short escapes plus `\u00XX` for the remaining
control characters).  Scores with no finite decimal representation have
no JSON text, so serialization is partial. -/

/-- Per-question entry of a structured grading payload. -/
structure QuestionGrade where
  score : ℚ
  deduction_details : List Char
  feedback : List Char
  needs_review : Bool

/-- Smallest exponent `k` with `d ∣ 10 ^ k`, when one exists below the
search bound (it does for every denominator of the form `2^a * 5^b`). -/
def decExpOf (d : ℕ) : Option ℕ :=
  (List.range (d + 1)).find? (fun k => 10 ^ k % d == 0)

/-- Fraction digits of value `fp`, zero-padded on the left to `k` digits. -/
def fracChars (k fp : ℕ) : List Char :=
  List.replicate (k - (natChars fp).length) '0' ++ natChars fp

/-- Decimal rendering of a rational with a power-of-ten denominator,
as Python would print the equal float (`-?d+` or `-?d+.d+`). -/
def renderNum (q : ℚ) : Option (List Char) :=
  match decExpOf q.den with
  | none => none
  | some k =>
    let m : ℤ := q.num * ((10 ^ k / q.den : ℕ) : ℤ)
    let a := m.natAbs
    let ip := a / 10 ^ k
    let fp := a % 10 ^ k
    let core := natChars ip ++ (if k = 0 then [] else '.' :: fracChars k fp)
    some (if m < 0 then '-' :: core else core)

/-- Escape one character as `json.dumps(…, ensure_ascii=False)` does. -/
def escChar (c : Char) : List Char :=
  if c = '"' then ['\\', '"']
  else if c = '\\' then ['\\', '\\']
  else if c = '\n' then ['\\', 'n']
  else if c = '\t' then ['\\', 't']
  else if c = '\r' then ['\\', 'r']
  else if c.toNat = 8 then ['\\', 'b']
  else if c.toNat = 12 then ['\\', 'f']
  else if c.toNat < 32 then
    ['\\', 'u', '0', '0', hexChar (c.toNat / 16), hexChar (c.toNat % 16)]
  else [c]

/-- Escape a string body. -/
def escapeChars (s : List Char) : List Char := (s.map escChar).flatten

/-- Serialize a JSON string. -/
def renderStr (s : List Char) : List Char := '"' :: escapeChars s ++ ['"']

/-- Serialize one per-question grade object. -/
def dumpGrade (g : QuestionGrade) : Option (List Char) :=
  match renderNum g.score with
  | none => none
  | some sc =>
    some ('{' :: (renderStr "score".toList ++ ':' :: sc ++
      ',' :: renderStr "deduction_details".toList ++ ':' ::
        renderStr g.deduction_details ++
      ',' :: renderStr "feedback".toList ++ ':' :: renderStr g.feedback ++
      ',' :: renderStr "needs_review".toList ++ ':' ::
        (if g.needs_review then "true".toList else "false".toList)) ++ ['}'])

/-- Serialize the members of a payload object. -/
def dumpMembers : List (List Char × QuestionGrade) → Option (List Char)
  | [] => some []
  | (key, g) :: rest =>
    match dumpGrade g, dumpMembers rest with
    | some gtxt, some rtxt =>
      some (renderStr key ++ ':' :: gtxt ++
        (if rest.isEmpty then [] else ',' :: rtxt))
    | _, _ => none

/-- Clean JSON serialization of a whole grading payload. -/
def dumpsPayload (p : List (List Char × QuestionGrade)) : Option (List Char) :=
  (dumpMembers p).map (fun ms => '{' :: (ms ++ ['}']))

/-- The `Json` value `json.loads` returns for one grade object. -/
def gradeJson (g : QuestionGrade) : Json :=
  .obj [("score".toList, .num g.score),
        ("deduction_details".toList, .str g.deduction_details),
        ("feedback".toList, .str g.feedback),
        ("needs_review".toList, .bool g.needs_review)]

/-- The `Json` value `json.loads` returns for a whole payload. -/
def payloadJson (p : List (List Char × QuestionGrade)) : Json :=
  .obj (p.map (fun kg => (kg.1, gradeJson kg.2)))

/-! ## Grading backends: pre-flight check, prompt and retry loop

The provider interactions are abstracted as oracles giving the outcome
of each attempt.  An uncaught Python exception is an `Except.error`; a
normal return is `Except.ok` carrying the `(result, error)` pair the
functions return, together with the number of `time.sleep(retry_delay)`
calls and the number of provider calls made, so that the retry schedule
is observable. -/

/-- Outcome of the pre-flight `requests.get(base_url + "/api/tags")` in
`OllamaGrader._check_server`: an HTTP response with a status code, a
`ConnectionError`, or any other raised exception (e.g. a read timeout),
which the `except requests.exceptions.ConnectionError` clause does not
catch. -/
inductive CheckOutcome where
  | resp (status : ℕ)
  | connError
  | raised (e : List Char)

/-- Embedding of `OllamaGrader._check_server` (`ollama_grader.py`,
lines 29–40): `True` iff the status is 200, `False` on `ConnectionError`,
and any other exception propagates. -/
def check_server : CheckOutcome → Except (List Char) Bool
  | .resp status => .ok (status == 200)
  | .connError => .ok false
  | .raised e => .error e

/-- Embedding of `create_grading_prompt` (`prompts.py`, line 9): the
f-string template reads `student_queries['4.1']` … `['4.5']` in order,
so the first absent key raises `KeyError`.  The surrounding fixed rubric
text is out of the specification's scope, so the result is abbreviated
to the five interpolated answers. -/
def create_grading_prompt (student_queries : List (String × String)) :
    Except (List Char) (List String) :=
  match lookupOpt student_queries "4.1" with
  | none => .error "KeyError: 4.1".toList
  | some q1 =>
    match lookupOpt student_queries "4.2" with
    | none => .error "KeyError: 4.2".toList
    | some q2 =>
      match lookupOpt student_queries "4.3" with
      | none => .error "KeyError: 4.3".toList
      | some q3 =>
        match lookupOpt student_queries "4.4" with
        | none => .error "KeyError: 4.4".toList
        | some q4 =>
          match lookupOpt student_queries "4.5" with
          | none => .error "KeyError: 4.5".toList
          | some q5 => .ok [q1, q2, q3, q4, q5]

namespace OllamaGrader

/-- Outcome of one `requests.post` to the Ollama generate endpoint: an
HTTP response with status code, raw body text and extracted
`json()["response"]` field, a `requests.exceptions.Timeout`, or another
raised exception with its `str(e)`. -/
inductive PostOutcome where
  | resp (status : ℕ) (text : List Char) (response_text : List Char)
  | timeout
  | exc (msg : List Char)

/-- `f"Ollama API error: {response.status_code} - {response.text}"`. -/
def api_error_msg (status : ℕ) (text : List Char) : List Char :=
  "Ollama API error: ".toList ++ natChars status ++ " - ".toList ++ text

/-- `f"JSON parsing error on attempt {attempt + 1}: ..."` (the
`str(e)` detail of the decode error is elided). -/
def json_error_msg (attempt : ℕ) : List Char :=
  "JSON parsing error on attempt ".toList ++ natChars (attempt + 1)

/-- `f"Request timeout on attempt {attempt + 1}"`. -/
def timeout_msg (attempt : ℕ) : List Char :=
  "Request timeout on attempt ".toList ++ natChars (attempt + 1)

/-- `f"Grading error on attempt {attempt + 1}: {str(e)}"`. -/
def grading_error_msg (attempt : ℕ) (e : List Char) : List Char :=
  "Grading error on attempt ".toList ++ natChars (attempt + 1) ++ ": ".toList ++ e

/-- The message returned when the attempt at index `attempt` fails and
no retries remain (`ollama_grader.py`, lines 137–180). -/
def attempt_error_msg (attempt : ℕ) : PostOutcome → List Char
  | .resp status text rtext =>
    if status ≠ 200 then api_error_msg status text
    else if rtext.isEmpty then "Empty response from Ollama".toList
    else json_error_msg attempt
  | .timeout => timeout_msg attempt
  | .exc e => grading_error_msg attempt e

/-- Does the attempt fail (non-200 status, empty response field, or a
response the normalizer cannot parse, or a raised timeout/exception)? -/
def attempt_fails : PostOutcome → Bool
  | .resp status _ rtext =>
    if status ≠ 200 then true
    else if rtext.isEmpty then true
    else (parse_response rtext).isNone
  | .timeout => true
  | .exc _ => true

/-- Embedding of the `for attempt in range(max_retries)` loop of
`OllamaGrader.grade_student_submission` (`ollama_grader.py`,
lines 120–182), recursing on the number of remaining attempts.  Returns
the `(result, error)` pair together with the number of sleeps and of
provider calls.  A failed non-final attempt sleeps `retry_delay` and
continues; a failed final attempt returns its error message; exhausting
the range returns `"Max retries exceeded"`. -/
def grade_loop (oracle : ℕ → PostOutcome) :
    ℕ → ℕ → (Option Json × Option (List Char)) × ℕ × ℕ
  | 0, _ => ((none, some "Max retries exceeded".toList), 0, 0)
  | remaining + 1, attempt =>
    let retry :=
      match grade_loop oracle remaining (attempt + 1) with
      | (r, sleeps, calls) => (r, sleeps + 1, calls + 1)
    match oracle attempt with
    | .resp status text rtext =>
      if status ≠ 200 then
        if remaining ≠ 0 then retry
        else ((none, some (api_error_msg status text)), 0, 1)
      else if rtext.isEmpty then
        if remaining ≠ 0 then retry
        else ((none, some "Empty response from Ollama".toList), 0, 1)
      else
        match parse_response rtext with
        | some j => ((some j, none), 0, 1)
        | none =>
          if remaining ≠ 0 then retry
          else ((none, some (json_error_msg attempt)), 0, 1)
    | .timeout =>
      if remaining ≠ 0 then retry
      else ((none, some (timeout_msg attempt)), 0, 1)
    | .exc e =>
      if remaining ≠ 0 then retry
      else ((none, some (grading_error_msg attempt e)), 0, 1)

/-- The unreachable-server message (`ollama_grader.py`, lines 113–116). -/
def server_not_running_msg (model_name : String) : List Char :=
  "Ollama server not running. Start it with: ollama serve\nThen pull the model with: ollama pull ".toList
    ++ model_name.toList

/-- Embedding of `OllamaGrader.grade_student_submission`
(`ollama_grader.py`, lines 96–182): pre-flight server check (whose
uncaught exceptions propagate), then prompt construction (whose
`KeyError` propagates), then the retry loop. -/
def grade_student_submission (check : CheckOutcome) (oracle : ℕ → PostOutcome)
    (model_name : String) (max_retries : ℕ)
    (student_queries : List (String × String)) :
    Except (List Char) ((Option Json × Option (List Char)) × ℕ × ℕ) :=
  match check_server check with
  | .error e => .error e
  | .ok false => .ok ((none, some (server_not_running_msg model_name)), 0, 0)
  | .ok true =>
    match create_grading_prompt student_queries with
    | .error e => .error e
    | .ok _ => .ok (grade_loop oracle max_retries 0)

end OllamaGrader

namespace GeminiGrader

/-- Outcome of one `model.generate_content` call: a response text, or a
raised exception with its `str(e)`. -/
inductive GenOutcome where
  | text (t : List Char)
  | exc (msg : List Char)

/-- `f"JSON parsing error on attempt {attempt + 1}: ..."` (decode-error
detail elided). -/
def json_error_msg (attempt : ℕ) : List Char :=
  "JSON parsing error on attempt ".toList ++ natChars (attempt + 1)

/-- `f"Grading error on attempt {attempt + 1}: {str(e)}"`. -/
def grading_error_msg (attempt : ℕ) (e : List Char) : List Char :=
  "Grading error on attempt ".toList ++ natChars (attempt + 1) ++ ": ".toList ++ e

/-- The message returned when the attempt at index `attempt` fails and
no retries remain (`grader.py`, lines 58–70). -/
def attempt_error_msg (attempt : ℕ) : GenOutcome → List Char
  | .text _ => json_error_msg attempt
  | .exc e => grading_error_msg attempt e

/-- Does the attempt fail (raised exception, or a response text the
normalizer cannot parse)? -/
def attempt_fails : GenOutcome → Bool
  | .text t => (parse_response t).isNone
  | .exc _ => true

/-- Embedding of the retry loop of `GeminiGrader.grade_student_submission`
(`grader.py`, lines 48–72). -/
def grade_loop (oracle : ℕ → GenOutcome) :
    ℕ → ℕ → (Option Json × Option (List Char)) × ℕ × ℕ
  | 0, _ => ((none, some "Max retries exceeded".toList), 0, 0)
  | remaining + 1, attempt =>
    let retry :=
      match grade_loop oracle remaining (attempt + 1) with
      | (r, sleeps, calls) => (r, sleeps + 1, calls + 1)
    match oracle attempt with
    | .text t =>
      match parse_response t with
      | some j => ((some j, none), 0, 1)
      | none =>
        if remaining ≠ 0 then retry
        else ((none, some (json_error_msg attempt)), 0, 1)
    | .exc e =>
      if remaining ≠ 0 then retry
      else ((none, some (grading_error_msg attempt e)), 0, 1)

/-- Embedding of `GeminiGrader.grade_student_submission` (`grader.py`,
lines 31–72): prompt construction (whose `KeyError` propagates), then
the retry loop. -/
def grade_student_submission (oracle : ℕ → GenOutcome) (max_retries : ℕ)
    (student_queries : List (String × String)) :
    Except (List Char) ((Option Json × Option (List Char)) × ℕ × ℕ) :=
  match create_grading_prompt student_queries with
  | .error e => .error e
  | .ok _ => .ok (grade_loop oracle max_retries 0)

end GeminiGrader

/-- Do the grading prompt's five question keys all appear in the query
map? -/
def hasAllPromptKeys (student_queries : List (String × String)) : Bool :=
  (lookupOpt student_queries "4.1").isSome && (lookupOpt student_queries "4.2").isSome &&
  (lookupOpt student_queries "4.3").isSome && (lookupOpt student_queries "4.4").isSome &&
  (lookupOpt student_queries "4.5").isSome

/-- Field lookup in a parsed JSON object (an observer used to compare
parse results without inspecting numeric leaves). -/
def objField (j : Json) (key : List Char) : Option Json :=
  match j with
  | .obj ms => (ms.find? (fun kv => kv.1 == key)).map (fun kv => kv.2)
  | _ => none

/-- String-field projection of a parsed JSON object. -/
def strField (j : Json) (key : List Char) : Option (List Char) :=
  match objField j key with
  | some (.str s) => some s
  | _ => none

/-! ## Lemmas about lookups and the results processor -/

theorem lookupD_cons_self {α : Type} (k : String) (v : α) (l : List (String × α)) (d : α) :
    lookupD ((k, v) :: l) k d = v := by
  simp [lookupD]

theorem lookupD_cons_ne {α : Type} {k q : String} (v : α) (l : List (String × α)) (d : α)
    (h : q ≠ k) : lookupD ((k, v) :: l) q d = lookupD l q d := by
  simp [lookupD, List.find?_cons, Ne.symm h]

/-- Summing a dict's values equals summing the per-key lookups, when the keys
are exactly the given (duplicate-free) list. -/
theorem sum_lookupD_eq_sum_values (gs : List (String × ℚ)) (qs : List String)
    (hkeys : gs.map Prod.fst = qs) (hnd : qs.Nodup) :
    (qs.map (fun q => lookupD gs q 0)).sum = (gs.map Prod.snd).sum := by
  induction gs generalizing qs with
  | nil =>
    simp at hkeys
    subst hkeys
    simp
  | cons p gs ih =>
    obtain ⟨k, v⟩ := p
    simp only [List.map_cons] at hkeys
    subst hkeys
    simp only [List.nodup_cons] at hnd
    have hlook : ∀ q ∈ gs.map Prod.fst, lookupD ((k, v) :: gs) q 0 = lookupD gs q 0 := by
      intro q hq
      exact lookupD_cons_ne v gs 0 (fun h => hnd.1 (h ▸ hq))
    calc ((k :: gs.map Prod.fst).map (fun q => lookupD ((k, v) :: gs) q 0)).sum
        = lookupD ((k, v) :: gs) k 0
            + ((gs.map Prod.fst).map (fun q => lookupD ((k, v) :: gs) q 0)).sum := by
          simp
      _ = v + ((gs.map Prod.fst).map (fun q => lookupD gs q 0)).sum := by
          rw [lookupD_cons_self, List.map_congr_left hlook]
      _ = v + (gs.map Prod.snd).sum := by rw [ih (gs.map Prod.fst) rfl hnd.2]
      _ = (((k, v) :: gs).map Prod.snd).sum := by simp

/-- Closed form of the `create_result_from_grading` accumulation loop. -/
theorem gradeStep_foldl (queries : List (String × String)) (gs : List (String × ℚ))
    (llm : List (String × QPayload)) (qs : List String) (a b : ℚ)
    (l : List (String × QuestionResult)) :
    qs.foldl (ResultsProcessor.gradeStep queries gs llm) (a, b, l) =
      (a + (qs.map (fun q => (lookupD llm (qKey q) ⟨none, none, none⟩).score.getD 0)).sum,
       b + (qs.map (fun q => lookupD gs q 0)).sum,
       l ++ qs.map (fun q =>
        (q, { query := lookupD queries q ""
              grader_score := lookupD gs q 0
              llm_score := (lookupD llm (qKey q) ⟨none, none, none⟩).score.getD 0
              score_difference := roundTo1
                ((lookupD llm (qKey q) ⟨none, none, none⟩).score.getD 0 - lookupD gs q 0)
              feedback := (lookupD llm (qKey q) ⟨none, none, none⟩).feedback.getD ""
              needs_review :=
                (lookupD llm (qKey q) ⟨none, none, none⟩).needs_review.getD false }))) := by
  induction qs generalizing a b l with
  | nil => simp
  | cons q qs ih =>
    simp only [List.foldl_cons, ResultsProcessor.gradeStep, List.map_cons, List.sum_cons]
    rw [ih]
    simp [add_assoc]

/-- C1: `create_failed_result` pins every model-derived field to `-1`, flags
every question for review with the fixed feedback text, and passes the human
scores through, totalling them without rounding. -/
theorem C1_create_failed_result (sid sn : String) (queries : List (String × String))
    (gs : List (String × ℚ)) (qs : List String)
    (hkeys : gs.map Prod.fst = qs) (hnd : qs.Nodup) :
    (ResultsProcessor.create_failed_result sid sn queries gs qs).per_question =
      qs.map (fun q =>
        (q, { query := lookupD queries q ""
              grader_score := lookupD gs q 0
              llm_score := -1
              score_difference := -1
              feedback := "Grading failed - requires manual review"
              needs_review := true })) ∧
    (∀ q qr, (q, qr) ∈ (ResultsProcessor.create_failed_result sid sn queries gs qs).per_question →
      qr.llm_score = -1 ∧ qr.score_difference = -1 ∧ qr.needs_review = true ∧
      qr.grader_score = lookupD gs q 0 ∧
      ∃ pre post, qr.feedback = pre ++ "requires manual review" ++ post) ∧
    (ResultsProcessor.create_failed_result sid sn queries gs qs).total_llm_score = -1 ∧
    (ResultsProcessor.create_failed_result sid sn queries gs qs).total_score_difference = -1 ∧
    (ResultsProcessor.create_failed_result sid sn queries gs qs).total_grader_score =
      (qs.map (fun q => lookupD gs q 0)).sum := by
  refine ⟨rfl, ?_, rfl, rfl, ?_⟩
  · intro q qr hmem
    simp only [ResultsProcessor.create_failed_result, List.mem_map] at hmem
    obtain ⟨q', _, heq⟩ := hmem
    obtain ⟨h1, h2⟩ := Prod.mk.injEq .. ▸ heq
    subst h1 h2
    exact ⟨rfl, rfl, rfl, rfl, "Grading failed - ", "", by rfl⟩
  · simpa [ResultsProcessor.create_failed_result] using
      (sum_lookupD_eq_sum_values gs qs hkeys hnd).symm

/-- Witness for C1 at a concrete failed submission. -/
theorem C1_create_failed_result_witness :
    (ResultsProcessor.create_failed_result "s1" "Ada" [("4.1", "SELECT 1")]
        [("4.1", 7), ("4.2", 3)] ["4.1", "4.2"]).total_llm_score = -1 ∧
    (ResultsProcessor.create_failed_result "s1" "Ada" [("4.1", "SELECT 1")]
        [("4.1", 7), ("4.2", 3)] ["4.1", "4.2"]).total_grader_score =
      ((["4.1", "4.2"] : List String).map
        (fun q => lookupD [("4.1", (7 : ℚ)), ("4.2", 3)] q 0)).sum :=
  ⟨(C1_create_failed_result "s1" "Ada" [("4.1", "SELECT 1")] [("4.1", 7), ("4.2", 3)]
      ["4.1", "4.2"] (by decide) (by decide)).2.2.1,
   (C1_create_failed_result "s1" "Ada" [("4.1", "SELECT 1")] [("4.1", 7), ("4.2", 3)]
      ["4.1", "4.2"] (by decide) (by decide)).2.2.2.2⟩

/-- C2 (amended): on the success path every per-question model score is read
with default 0, each difference is `round(model - human, 1)`, the human total
is the unrounded sum, the model total is the rounded sum, and the total
difference is rounded from the UNROUNDED model total (not from the rounded
total the claim names). -/
theorem C2_create_result_from_grading (sid sn : String)
    (queries : List (String × String)) (gs : List (String × ℚ))
    (llm : List (String × QPayload)) (qs : List String) :
    (ResultsProcessor.create_result_from_grading sid sn queries gs llm qs).per_question =
      qs.map (fun q =>
        (q, { query := lookupD queries q ""
              grader_score := lookupD gs q 0
              llm_score := (lookupD llm (qKey q) ⟨none, none, none⟩).score.getD 0
              score_difference := roundTo1
                ((lookupD llm (qKey q) ⟨none, none, none⟩).score.getD 0 - lookupD gs q 0)
              feedback := (lookupD llm (qKey q) ⟨none, none, none⟩).feedback.getD ""
              needs_review :=
                (lookupD llm (qKey q) ⟨none, none, none⟩).needs_review.getD false })) ∧
    (ResultsProcessor.create_result_from_grading sid sn queries gs llm qs).total_llm_score =
      roundTo1 ((qs.map
        (fun q => (lookupD llm (qKey q) ⟨none, none, none⟩).score.getD 0)).sum) ∧
    (ResultsProcessor.create_result_from_grading sid sn queries gs llm qs).total_grader_score =
      (qs.map (fun q => lookupD gs q 0)).sum ∧
    (ResultsProcessor.create_result_from_grading sid sn queries gs llm qs).total_score_difference =
      roundTo1 ((qs.map
          (fun q => (lookupD llm (qKey q) ⟨none, none, none⟩).score.getD 0)).sum
        - (qs.map (fun q => lookupD gs q 0)).sum) := by
  refine ⟨?_, ?_, ?_, ?_⟩ <;>
    simp [ResultsProcessor.create_result_from_grading,
      gradeStep_foldl queries gs llm qs 0 0 []]

/-- C2 counterexample: with one model score of `0.24` and a human score of
`0.08`, the code's total difference is `round(0.24 - 0.08, 1) = 0.2`, while
the claim's formula `round(total_model_score - total_grader_score, 1)` with
the rounded total `round(0.24, 1) = 0.2` gives `round(0.12, 1) = 0.1`. -/
theorem C2_counterexample :
    ¬ ((ResultsProcessor.create_result_from_grading "s1" "Ada" []
          [("4.1", 2/25)] [("question_4_1", ⟨some (6/25), none, none⟩)]
          ["4.1", "4.2", "4.3", "4.4", "4.5"]).total_score_difference =
        roundTo1 ((ResultsProcessor.create_result_from_grading "s1" "Ada" []
            [("4.1", 2/25)] [("question_4_1", ⟨some (6/25), none, none⟩)]
            ["4.1", "4.2", "4.3", "4.4", "4.5"]).total_llm_score -
          (ResultsProcessor.create_result_from_grading "s1" "Ada" []
            [("4.1", 2/25)] [("question_4_1", ⟨some (6/25), none, none⟩)]
            ["4.1", "4.2", "4.3", "4.4", "4.5"]).total_grader_score)) := by
  have h : (ResultsProcessor.create_result_from_grading "s1" "Ada" []
        [("4.1", 2/25)] [("question_4_1", ⟨some (6/25), none, none⟩)]
        ["4.1", "4.2", "4.3", "4.4", "4.5"]).total_llm_score =
      roundTo1 (((["4.1", "4.2", "4.3", "4.4", "4.5"] : List String).map
        (fun q => (lookupD [("question_4_1", (⟨some (6/25), none, none⟩ : QPayload))]
          (qKey q) ⟨none, none, none⟩).score.getD 0)).sum) ∧
      (ResultsProcessor.create_result_from_grading "s1" "Ada" []
        [("4.1", 2/25)] [("question_4_1", ⟨some (6/25), none, none⟩)]
        ["4.1", "4.2", "4.3", "4.4", "4.5"]).total_grader_score =
      ((["4.1", "4.2", "4.3", "4.4", "4.5"] : List String).map
        (fun q => lookupD [("4.1", (2/25 : ℚ))] q 0)).sum ∧
      (ResultsProcessor.create_result_from_grading "s1" "Ada" []
        [("4.1", 2/25)] [("question_4_1", ⟨some (6/25), none, none⟩)]
        ["4.1", "4.2", "4.3", "4.4", "4.5"]).total_score_difference =
      roundTo1 (((["4.1", "4.2", "4.3", "4.4", "4.5"] : List String).map
          (fun q => (lookupD [("question_4_1", (⟨some (6/25), none, none⟩ : QPayload))]
            (qKey q) ⟨none, none, none⟩).score.getD 0)).sum -
        ((["4.1", "4.2", "4.3", "4.4", "4.5"] : List String).map
          (fun q => lookupD [("4.1", (2/25 : ℚ))] q 0)).sum) := by
    refine ⟨?_, ?_, ?_⟩ <;>
      simp [ResultsProcessor.create_result_from_grading,
        gradeStep_foldl [] [("4.1", 2/25)]
          [("question_4_1", ⟨some (6/25), none, none⟩)]
          ["4.1", "4.2", "4.3", "4.4", "4.5"] 0 0 []]
  have e1 : (["4.1", "4.2", "4.3", "4.4", "4.5"] : List String).map
      (fun q => (lookupD [("question_4_1", (⟨some (6/25), none, none⟩ : QPayload))]
        (qKey q) ⟨none, none, none⟩).score.getD 0) = [6/25, 0, 0, 0, 0] := by rfl
  have e2 : (["4.1", "4.2", "4.3", "4.4", "4.5"] : List String).map
      (fun q => lookupD [("4.1", (2/25 : ℚ))] q 0) = [2/25, 0, 0, 0, 0] := by rfl
  rw [h.2.2, h.1, h.2.1, e1, e2]
  simp only [List.sum_cons, List.sum_nil, add_zero, zero_add]
  norm_num [roundTo1, roundHalfEven]

/-! ## Statistics validity filter: claim C8 -/

/-- C8: the statistics loader keeps a row iff its question-4.1 model score is
`≥ 0` and none of the five human grader scores are missing; failure-shaped
rows (sentinel `-1`) and rows with a missing human score are excluded. -/
theorem C8_validity_filter (rows : List GradingStatistics.ResultRow)
    (r : GradingStatistics.ResultRow) :
    (r ∈ GradingStatistics.load_and_validate rows ↔
      r ∈ rows ∧ (∃ v, r.q4_1_llm_score = some v ∧ 0 ≤ v) ∧
      r.q4_1_grader_score.isSome ∧ r.q4_2_grader_score.isSome ∧
      r.q4_3_grader_score.isSome ∧ r.q4_4_grader_score.isSome ∧
      r.q4_5_grader_score.isSome) ∧
    (r.q4_1_llm_score = some (-1) → r ∉ GradingStatistics.load_and_validate rows) ∧
    ((r.q4_1_grader_score = none ∨ r.q4_2_grader_score = none ∨
      r.q4_3_grader_score = none ∨ r.q4_4_grader_score = none ∨
      r.q4_5_grader_score = none) → r ∉ GradingStatistics.load_and_validate rows) := by
  have hiff : r ∈ GradingStatistics.load_and_validate rows ↔
      r ∈ rows ∧ (∃ v, r.q4_1_llm_score = some v ∧ 0 ≤ v) ∧
      r.q4_1_grader_score.isSome ∧ r.q4_2_grader_score.isSome ∧
      r.q4_3_grader_score.isSome ∧ r.q4_4_grader_score.isSome ∧
      r.q4_5_grader_score.isSome := by
    constructor
    · intro h
      rw [GradingStatistics.load_and_validate, List.mem_filter, List.mem_filter] at h
      obtain ⟨⟨hmem, hsent⟩, hg⟩ := h
      rw [GradingStatistics.sentinelPass] at hsent
      rw [GradingStatistics.graderScoresPresent] at hg
      simp only [Bool.and_eq_true] at hg
      refine ⟨hmem, ?_, hg.1.1.1.1, hg.1.1.1.2, hg.1.1.2, hg.1.2, hg.2⟩
      cases hv : r.q4_1_llm_score with
      | none => rw [hv] at hsent; cases hsent
      | some v =>
        rw [hv] at hsent
        exact ⟨v, rfl, of_decide_eq_true hsent⟩
    · intro h
      obtain ⟨hmem, ⟨v, hv, hv0⟩, h1, h2, h3, h4, h5⟩ := h
      rw [GradingStatistics.load_and_validate, List.mem_filter, List.mem_filter]
      refine ⟨⟨hmem, ?_⟩, ?_⟩
      · rw [GradingStatistics.sentinelPass, hv]
        exact decide_eq_true hv0
      · rw [GradingStatistics.graderScoresPresent]
        simp [h1, h2, h3, h4, h5]
  refine ⟨hiff, ?_, ?_⟩
  · intro hneg hmem
    obtain ⟨-, ⟨v, hv, hv0⟩, -⟩ := hiff.mp hmem
    rw [hneg] at hv
    obtain rfl : (-1 : ℚ) = v := Option.some.inj hv
    exact absurd hv0 (by norm_num)
  · intro hmiss hmem
    obtain ⟨-, -, h1, h2, h3, h4, h5⟩ := hiff.mp hmem
    rcases hmiss with h | h | h | h | h <;> simp_all

/-- Witness for C8: a failure-shaped row and a row with a missing human
score are both excluded. -/
theorem C8_validity_filter_witness :
    (⟨some (-1), some 1, some 1, some 1, some 1, some 1⟩ : GradingStatistics.ResultRow) ∉
      GradingStatistics.load_and_validate
        [⟨some (-1), some 1, some 1, some 1, some 1, some 1⟩] ∧
    (⟨some 3, none, some 1, some 1, some 1, some 1⟩ : GradingStatistics.ResultRow) ∉
      GradingStatistics.load_and_validate
        [⟨some 3, none, some 1, some 1, some 1, some 1⟩] :=
  ⟨(C8_validity_filter [⟨some (-1), some 1, some 1, some 1, some 1, some 1⟩]
      ⟨some (-1), some 1, some 1, some 1, some 1, some 1⟩).2.1 rfl,
   (C8_validity_filter [⟨some 3, none, some 1, some 1, some 1, some 1⟩]
      ⟨some 3, none, some 1, some 1, some 1, some 1⟩).2.2 (Or.inl rfl)⟩

/-! ## Schema validation: claim C9 -/

theorem validateQuestionCols_eq_flatMap (cols : List String)
    (qcols : List (String × String × String)) :
    SubmissionLoader.validateQuestionCols cols qcols =
      qcols.flatMap (fun qc =>
        (if qc.2.1 ∈ cols then [] else [qc.1 ++ " Response"]) ++
        (if qc.2.2 ∈ cols then [] else [qc.1 ++ " Score"])) := by
  induction qcols with
  | nil => rfl
  | cons qc rest ih =>
    simp only [SubmissionLoader.validateQuestionCols, ih, List.flatMap_cons,
      List.append_assoc]
    by_cases h1 : qc.2.1 ∈ cols <;> by_cases h2 : qc.2.2 ∈ cols <;> simp [h1, h2]

/-- C9 (amended): `validate_columns` returns, without raising, one entry per
absent expected column — the literal identity-column names, and a
`"<question> Response"` / `"<question> Score"` label (not the configured
column name) for question columns — and is empty iff every expected column
is present. -/
theorem C9_validate_columns (cols : List String)
    (qcols : List (String × String × String)) :
    SubmissionLoader.validate_columns cols qcols =
      (if "Student ID" ∈ cols then [] else ["Student ID"]) ++
      (if "Name" ∈ cols then [] else ["Name"]) ++
      qcols.flatMap (fun qc =>
        (if qc.2.1 ∈ cols then [] else [qc.1 ++ " Response"]) ++
        (if qc.2.2 ∈ cols then [] else [qc.1 ++ " Score"])) ∧
    (SubmissionLoader.validate_columns cols qcols = [] ↔
      "Student ID" ∈ cols ∧ "Name" ∈ cols ∧
      ∀ qc ∈ qcols, qc.2.1 ∈ cols ∧ qc.2.2 ∈ cols) := by
  have hform : SubmissionLoader.validate_columns cols qcols =
      (if "Student ID" ∈ cols then [] else ["Student ID"]) ++
      (if "Name" ∈ cols then [] else ["Name"]) ++
      qcols.flatMap (fun qc =>
        (if qc.2.1 ∈ cols then [] else [qc.1 ++ " Response"]) ++
        (if qc.2.2 ∈ cols then [] else [qc.1 ++ " Score"])) := by
    rw [SubmissionLoader.validate_columns, validateQuestionCols_eq_flatMap]
    by_cases h1 : "Student ID" ∈ cols <;> by_cases h2 : "Name" ∈ cols <;>
      simp [h1, h2]
  refine ⟨hform, ?_⟩
  rw [hform]
  simp only [List.append_eq_nil, List.flatMap_eq_nil_iff]
  constructor
  · intro h
    obtain ⟨⟨hs, hn⟩, hq⟩ := h
    refine ⟨?_, ?_, ?_⟩
    · by_contra hc; simp [hc] at hs
    · by_contra hc; simp [hc] at hn
    · intro qc hqc
      have := hq qc hqc
      constructor
      · by_contra hc; simp [hc] at this
      · by_contra hc; simp [hc] at this
  · intro h
    obtain ⟨hs, hn, hq⟩ := h
    refine ⟨⟨by simp [hs], by simp [hn]⟩, ?_⟩
    intro qc hqc
    simp [(hq qc hqc).1, (hq qc hqc).2]

/-- Witness for C9 (amended) at a concrete table and configuration. -/
theorem C9_validate_columns_witness :
    SubmissionLoader.validate_columns ["Student ID", "Name", "Question 4.1 Score"]
        [("4.1", "Question 4.1 Response", "Question 4.1 Score")] =
      (if "Student ID" ∈ ["Student ID", "Name", "Question 4.1 Score"] then []
        else ["Student ID"]) ++
      (if "Name" ∈ ["Student ID", "Name", "Question 4.1 Score"] then [] else ["Name"]) ++
      ([("4.1", "Question 4.1 Response", "Question 4.1 Score")].flatMap (fun qc =>
        (if qc.2.1 ∈ ["Student ID", "Name", "Question 4.1 Score"] then []
          else [qc.1 ++ " Response"]) ++
        (if qc.2.2 ∈ ["Student ID", "Name", "Question 4.1 Score"] then []
          else [qc.1 ++ " Score"]))) :=
  (C9_validate_columns ["Student ID", "Name", "Question 4.1 Score"]
    [("4.1", "Question 4.1 Response", "Question 4.1 Score")]).1

/-- C9 counterexample: with the default configuration the absent response
column is named `Question 4.1 Response`, but the returned entry is the label
`4.1 Response`, so the claimed "name of every absent expected column" is not
what is returned. -/
theorem C9_counterexample :
    SubmissionLoader.validate_columns ["Student ID", "Name"]
        [("4.1", "Question 4.1 Response", "Question 4.1 Score")] =
      ["4.1 Response", "4.1 Score"] ∧
    "Question 4.1 Response" ∉ SubmissionLoader.validate_columns ["Student ID", "Name"]
        [("4.1", "Question 4.1 Response", "Question 4.1 Score")] ∧
    "Question 4.1 Response" ∉ (["Student ID", "Name"] : List String) :=
  ⟨by rfl, by decide, by decide⟩

/-! ## Submission limit: claim C10 -/

/-- C10: `get_submissions` treats a zero limit as no limit, and a positive
limit `n` yields exactly the first `min(n, row count)` submissions in source
row order. -/
theorem C10_get_submissions (rows : List SubmissionLoader.CsvRow)
    (qcols : List (String × String × String)) :
    SubmissionLoader.get_submissions rows qcols (some 0) =
      SubmissionLoader.get_submissions rows qcols none ∧
    SubmissionLoader.get_submissions rows qcols none =
      rows.map (SubmissionLoader.rowToSubmission qcols) ∧
    ∀ n : ℤ, 0 < n →
      SubmissionLoader.get_submissions rows qcols (some n) =
        (rows.take n.toNat).map (SubmissionLoader.rowToSubmission qcols) ∧
      (SubmissionLoader.get_submissions rows qcols (some n)).length =
        min n.toNat rows.length := by
  refine ⟨by simp [SubmissionLoader.get_submissions], rfl, ?_⟩
  intro n hn
  have hne : ¬ (n = 0) := by omega
  have h0 : (0 : ℤ) ≤ n := le_of_lt hn
  constructor
  · simp [SubmissionLoader.get_submissions, hne, SubmissionLoader.pyHead, h0]
  · simp [SubmissionLoader.get_submissions, hne, SubmissionLoader.pyHead, h0,
      List.length_take]

/-- Witness for C10 with two rows and limit 1. -/
theorem C10_get_submissions_witness :
    SubmissionLoader.get_submissions
        [⟨"s1", "Ada", [], []⟩, ⟨"s2", "Bob", [], []⟩] [] (some 1) =
      (([⟨"s1", "Ada", [], []⟩, ⟨"s2", "Bob", [], []⟩] :
          List SubmissionLoader.CsvRow).take (1 : ℤ).toNat).map
        (SubmissionLoader.rowToSubmission []) ∧
    (SubmissionLoader.get_submissions
        [⟨"s1", "Ada", [], []⟩, ⟨"s2", "Bob", [], []⟩] [] (some 1)).length =
      min (1 : ℤ).toNat ([⟨"s1", "Ada", [], []⟩, ⟨"s2", "Bob", [], []⟩] :
          List SubmissionLoader.CsvRow).length :=
  (C10_get_submissions [⟨"s1", "Ada", [], []⟩, ⟨"s2", "Bob", [], []⟩] []).2.2 1
    (by decide)

/-! ## String-primitive lemmas -/

theorem startsWithL_append_self (p rest : List Char) :
    startsWithL p (p ++ rest) = true := by
  induction p with
  | nil => rfl
  | cons c p ih => simp [startsWithL, ih]

theorem startsWithL_of_append {p q l : List Char}
    (h : startsWithL (p ++ q) l = true) : startsWithL p l = true := by
  induction p generalizing l with
  | nil => rfl
  | cons c p ih =>
    cases l with
    | nil => simp [startsWithL] at h
    | cons a l =>
      simp only [List.cons_append, startsWithL, Bool.and_eq_true] at h ⊢
      exact ⟨h.1, ih h.2⟩

theorem findSub_nil_of_ne_nil {p : List Char} (h : p ≠ []) : findSub p [] = none := by
  simp [findSub, h]

theorem findSub_cons_self (c : Char) (p rest : List Char) :
    findSub (c :: p) ((c :: p) ++ rest) = some 0 := by
  have h : startsWithL (c :: p) (c :: (p ++ rest)) = true := by
    rw [← List.cons_append]
    exact startsWithL_append_self (c :: p) rest
  rw [List.cons_append, findSub, h]
  rfl

theorem findSub_append_of_notMem {h : Char} {p : List Char} (l m : List Char)
    (hm : h ∉ l) : findSub (h :: p) (l ++ m) = (findSub (h :: p) m).map (· + l.length) := by
  induction l with
  | nil =>
    cases hf : findSub (h :: p) m <;> simp [hf]
  | cons a l ih =>
    have hne : (h == a) = false := by
      simp only [beq_eq_false_iff_ne, ne_eq]
      intro he
      exact hm (he ▸ List.mem_cons_self a l)
    have hsw : startsWithL (h :: p) (a :: (l ++ m)) = false := by
      simp [startsWithL, hne]
    rw [List.cons_append, findSub, hsw]
    simp only [if_false, Bool.false_eq_true]
    rw [ih (fun hx => hm (List.mem_cons_of_mem a hx))]
    cases hf : findSub (h :: p) m <;> simp [hf, List.length_cons] <;> omega

theorem findSub_eq_none_of_notMem {h : Char} {p : List Char} (l : List Char)
    (hm : h ∉ l) : findSub (h :: p) l = none := by
  have := @findSub_append_of_notMem h p l [] hm
  rw [List.append_nil] at this
  rw [this, findSub_nil_of_ne_nil (by simp)]
  rfl

theorem containsSub_false_of_notMem {h : Char} {p : List Char} (l : List Char)
    (hm : h ∉ l) : containsSub (h :: p) l = false := by
  rw [containsSub, findSub_eq_none_of_notMem l hm]
  rfl

theorem lstripL_append_of_not_ws (x : List Char) {c : Char} (t : List Char)
    (h : pyWsChar c = false) : lstripL (x ++ c :: t) = lstripL x ++ c :: t := by
  induction x with
  | nil => simp [lstripL, List.dropWhile, h]
  | cons a x ih =>
    simp only [List.cons_append, lstripL, List.dropWhile] at ih ⊢
    cases ha : pyWsChar a <;> simp [ha, ih]

theorem rstripL_append_of_not_ws (x y : List Char) {c : Char}
    (h : pyWsChar c = false) : rstripL ((x ++ [c]) ++ y) = (x ++ [c]) ++ rstripL y := by
  rw [rstripL, rstripL, List.reverse_append, List.reverse_append, List.reverse_cons,
    List.reverse_nil, List.nil_append]
  have hl := lstripL_append_of_not_ws y.reverse x.reverse h
  rw [lstripL] at hl
  simp only [List.singleton_append]
  rw [hl, List.reverse_append, List.reverse_cons]
  simp [lstripL]

theorem pyStrip_of_ends {c d : Char} (core : List Char)
    (hc : pyWsChar c = false) (hd : pyWsChar d = false) :
    pyStrip (c :: core ++ [d]) = c :: core ++ [d] := by
  rw [pyStrip]
  have h1 : lstripL (c :: core ++ [d]) = c :: core ++ [d] := by
    have := lstripL_append_of_not_ws [] (core ++ [d]) hc
    simpa [lstripL] using this
  rw [h1]
  have h2 := rstripL_append_of_not_ws (c :: core) [] hd
  simpa [rstripL, lstripL] using h2

theorem rfindChar_append_last (c : Char) (y : List Char) :
    rfindChar c (y ++ [c]) = some y.length := by
  rw [rfindChar, List.reverse_append]
  simp only [List.reverse_cons, List.reverse_nil, List.nil_append, List.singleton_append]
  have : findSub [c] (c :: y.reverse) = some 0 := findSub_cons_self c [] y.reverse
  rw [this]
  simp

theorem findSub_head_self (c : Char) (t : List Char) :
    findSub [c] (c :: t) = some 0 := findSub_cons_self c [] t

theorem sliceL_id (l : List Char) : sliceL l 0 l.length = l := by
  simp [sliceL]

theorem skipWs_cons_of_not_ws {c : Char} (t : List Char) (h : jsonWs c = false) :
    skipWs (c :: t) = c :: t := by
  simp [skipWs, List.dropWhile, h]

/-! ## Digit-rendering lemmas -/

theorem isDig_digChar {d : ℕ} (h : d < 10) : isDig (digChar d) = true := by
  interval_cases d <;> decide

theorem digVal_digChar {d : ℕ} (h : d < 10) : digVal (digChar d) = d := by
  interval_cases d <;> decide

theorem natCharsF_fuel : ∀ (n f f' : ℕ), n < f → n < f' → natCharsF f n = natCharsF f' n := by
  intro n
  induction n using Nat.strong_induction_on with
  | _ n ih =>
    intro f f' hf hf'
    match f, f' with
    | g + 1, g' + 1 =>
      simp only [natCharsF]
      by_cases h10 : n < 10
      · simp [h10]
      · simp only [h10, if_false]
        have hd : n / 10 < n := Nat.div_lt_self (by omega) (by omega)
        rw [ih (n / 10) hd g g' (by omega) (by omega)]

theorem natChars_unfold (n : ℕ) :
    natChars n = if n < 10 then [digChar n]
      else natChars (n / 10) ++ [digChar (n % 10)] := by
  rw [natChars, natCharsF]
  by_cases h : n < 10
  · simp [h]
  · simp only [h, if_false]
    have hd : n / 10 < n := Nat.div_lt_self (by omega) (by omega)
    rw [natChars, natCharsF_fuel (n / 10) n (n / 10 + 1) hd (by omega)]

theorem natChars_ne_nil (n : ℕ) : natChars n ≠ [] := by
  rw [natChars_unfold]
  by_cases h : n < 10 <;> simp [h]

theorem natChars_all_digits (n : ℕ) : ∀ c ∈ natChars n, isDig c = true := by
  induction n using Nat.strong_induction_on with
  | _ n ih =>
    rw [natChars_unfold]
    by_cases h : n < 10
    · simp only [h, if_true, List.mem_singleton]
      rintro c rfl
      exact isDig_digChar h
    · simp only [h, if_false, List.mem_append, List.mem_singleton]
      rintro c (hc | rfl)
      · exact ih (n / 10) (Nat.div_lt_self (by omega) (by omega)) c hc
      · exact isDig_digChar (Nat.mod_lt _ (by omega))

theorem valOfDigits_foldl (ds : List Char) (acc : ℕ) :
    ds.foldl (fun a c => a * 10 + digVal c) acc = acc * 10 ^ ds.length + valOfDigits ds := by
  induction ds generalizing acc with
  | nil => simp [valOfDigits]
  | cons c ds ih =>
    have hv : valOfDigits (c :: ds) = digVal c * 10 ^ ds.length + valOfDigits ds := by
      rw [valOfDigits, List.foldl_cons, ih]
      simp
    rw [List.foldl_cons, ih, hv, List.length_cons]
    ring

theorem valOfDigits_append (a b : List Char) :
    valOfDigits (a ++ b) = valOfDigits a * 10 ^ b.length + valOfDigits b := by
  rw [valOfDigits, List.foldl_append, valOfDigits_foldl]
  rfl

theorem valOfDigits_natChars (n : ℕ) : valOfDigits (natChars n) = n := by
  induction n using Nat.strong_induction_on with
  | _ n ih =>
    rw [natChars_unfold]
    by_cases h : n < 10
    · simp [h, valOfDigits, digVal_digChar h]
    · simp only [h, if_false]
      rw [valOfDigits_append, ih (n / 10) (Nat.div_lt_self (by omega) (by omega))]
      have : valOfDigits [digChar (n % 10)] = n % 10 := by
        simp [valOfDigits, digVal_digChar (Nat.mod_lt _ (show 0 < 10 by omega))]
      rw [this]
      simp only [List.length_singleton, pow_one]
      omega

theorem natChars_head {n : ℕ} (h : 1 ≤ n) :
    ∃ d t, natChars n = digChar d :: t ∧ 1 ≤ d ∧ d < 10 := by
  induction n using Nat.strong_induction_on with
  | _ n ih =>
    rw [natChars_unfold]
    by_cases h10 : n < 10
    · exact ⟨n, [], by simp [h10], h, h10⟩
    · obtain ⟨d, t, hdt, hd1, hd9⟩ :=
        ih (n / 10) (Nat.div_lt_self (by omega) (by omega))
          ((Nat.one_le_div_iff (by omega)).mpr (by omega))
      exact ⟨d, t ++ [digChar (n % 10)], by rw [if_neg h10, hdt, List.cons_append], hd1, hd9⟩

theorem natChars_length_le {n k : ℕ} (h : n < 10 ^ k) (hk : 1 ≤ k) :
    (natChars n).length ≤ k := by
  induction n using Nat.strong_induction_on generalizing k with
  | _ n ih =>
    rw [natChars_unfold]
    by_cases h10 : n < 10
    · simp only [h10, if_true, List.length_singleton]
      omega
    · simp only [h10, if_false, List.length_append, List.length_singleton]
      have hk2 : 2 ≤ k := by
        by_contra hc
        have : k = 1 := by omega
        subst this
        simp at h
        omega
      have hdiv : n / 10 < 10 ^ (k - 1) := by
        rw [Nat.div_lt_iff_lt_mul (by omega)]
        calc n < 10 ^ k := h
          _ = 10 ^ (k - 1) * 10 := by
            rw [← pow_succ]
            congr 1
            omega
      have := ih (n / 10) (Nat.div_lt_self (by omega) (by omega)) hdiv (by omega)
      omega

theorem valOfDigits_replicate_zero (z : ℕ) :
    valOfDigits (List.replicate z '0') = 0 := by
  induction z with
  | zero => rfl
  | succ z ih =>
    rw [List.replicate_succ, ← List.singleton_append, valOfDigits_append, ih]
    simp [valOfDigits, digVal]

theorem fracChars_all_digits {k fp : ℕ} : ∀ c ∈ fracChars k fp, isDig c = true := by
  intro c hc
  rw [fracChars, List.mem_append] at hc
  rcases hc with hc | hc
  · rw [List.eq_of_mem_replicate hc]
    decide
  · exact natChars_all_digits fp c hc

theorem fracChars_length {k fp : ℕ} (h : fp < 10 ^ k) (hk : 1 ≤ k) :
    (fracChars k fp).length = k := by
  rw [fracChars, List.length_append, List.length_replicate]
  have := natChars_length_le h hk
  omega

theorem valOfDigits_fracChars (k fp : ℕ) : valOfDigits (fracChars k fp) = fp := by
  rw [fracChars, valOfDigits_append, valOfDigits_replicate_zero, valOfDigits_natChars]
  simp

theorem fracChars_ne_nil (k fp : ℕ) : fracChars k fp ≠ [] := by
  rw [fracChars]
  intro h
  rw [List.append_eq_nil] at h
  exact natChars_ne_nil fp h.2

/-! ## Number-scanner lemmas -/

theorem takeWhile_isDig_append {ds rest : List Char}
    (hd : ∀ c ∈ ds, isDig c = true)
    (hr : ∀ c, rest.head? = some c → isDig c = false) :
    (ds ++ rest).takeWhile isDig = ds := by
  induction ds with
  | nil =>
    cases rest with
    | nil => rfl
    | cons c t => simp [List.takeWhile_cons, hr c rfl]
  | cons d ds ih =>
    have hdig : isDig d = true := hd d (List.mem_cons_self d ds)
    simp [List.takeWhile_cons, hdig, ih (fun c hc => hd c (List.mem_cons_of_mem d hc))]

theorem dropWhile_isDig_append {ds rest : List Char}
    (hd : ∀ c ∈ ds, isDig c = true)
    (hr : ∀ c, rest.head? = some c → isDig c = false) :
    (ds ++ rest).dropWhile isDig = rest := by
  induction ds with
  | nil =>
    cases rest with
    | nil => rfl
    | cons c t => simp [List.dropWhile_cons, hr c rfl]
  | cons d ds ih =>
    have hdig : isDig d = true := hd d (List.mem_cons_self d ds)
    simp [List.dropWhile_cons, hdig, ih (fun c hc => hd c (List.mem_cons_of_mem d hc))]

theorem spanDigits_append {ds rest : List Char}
    (hd : ∀ c ∈ ds, isDig c = true)
    (hr : ∀ c, rest.head? = some c → isDig c = false) :
    spanDigits (ds ++ rest) = (ds, rest) := by
  rw [spanDigits, List.span_eq_take_drop, takeWhile_isDig_append hd hr,
    dropWhile_isDig_append hd hr]

theorem isDig_toNat {c : Char} (h : isDig c = true) :
    48 ≤ c.toNat ∧ c.toNat ≤ 57 := by
  rw [isDig, Bool.and_eq_true, decide_eq_true_eq, decide_eq_true_eq] at h
  exact h

theorem ne_of_isDig {c x : Char} (h : isDig c = true) (hx : isDig x = false) :
    c ≠ x := by
  intro he
  rw [he, hx] at h
  cases h

theorem isDig_not_ws {c : Char} (h : isDig c = true) : jsonWs c = false := by
  obtain ⟨h1, h2⟩ := isDig_toNat h
  have hs : decide (c = ' ') = false :=
    decide_eq_false (fun he => by rw [he] at h1; exact absurd h1 (by decide))
  have ht : decide (c = '\t') = false :=
    decide_eq_false (fun he => by rw [he] at h1; exact absurd h1 (by decide))
  have hn : decide (c = '\n') = false :=
    decide_eq_false (fun he => by rw [he] at h1; exact absurd h1 (by decide))
  have hr : decide (c = '\r') = false :=
    decide_eq_false (fun he => by rw [he] at h1; exact absurd h1 (by decide))
  rw [jsonWs, hs, ht, hn, hr]
  rfl

theorem isDig_not_pyWs {c : Char} (h : isDig c = true) : pyWsChar c = false := by
  obtain ⟨h1, h2⟩ := isDig_toNat h
  rw [pyWsChar, decide_eq_false_iff_not]
  rintro (he | he | he | he | he | he)
  · rw [he] at h1; exact absurd h1 (by decide)
  · rw [he] at h1; exact absurd h1 (by decide)
  · rw [he] at h1; exact absurd h1 (by decide)
  · rw [he] at h1; exact absurd h1 (by decide)
  · omega
  · omega

theorem natChars_head_digit (n : ℕ) :
    ∃ c t, natChars n = c :: t ∧ isDig c = true := by
  cases hnc : natChars n with
  | nil => exact absurd hnc (natChars_ne_nil n)
  | cons c t =>
    refine ⟨c, t, rfl, ?_⟩
    exact natChars_all_digits n c (hnc ▸ List.mem_cons_self c t)

theorem parseIntPart_append (n : ℕ) (rest : List Char)
    (hr : ∀ c, rest.head? = some c → isDig c = false) :
    parseIntPart (natChars n ++ rest) = some (n, rest) := by
  by_cases h0 : n = 0
  · subst h0
    have h : natChars 0 = ['0'] := by rw [natChars_unfold]; rfl
    rw [h]
    simp [parseIntPart]
  · obtain ⟨d, t, hdt, hd1, hd9⟩ := natChars_head (Nat.pos_of_ne_zero h0)
    have hne : digChar d ≠ '0' := by interval_cases d <;> decide
    rw [hdt, List.cons_append, parseIntPart, if_neg hne, ← List.cons_append, ← hdt]
    rw [spanDigits_append (natChars_all_digits n) hr]
    have : natChars n ≠ [] := natChars_ne_nil n
    cases hnc : natChars n with
    | nil => exact absurd hnc this
    | cons c cs =>
      simp only
      rw [← hnc, valOfDigits_natChars]

theorem parseFrac_fracChars {k fp : ℕ} (hk : 1 ≤ k) (hfp : fp < 10 ^ k)
    (rest : List Char) (hr : ∀ c, rest.head? = some c → isDig c = false) :
    parseFrac ('.' :: (fracChars k fp ++ rest)) = (fp, k, rest) := by
  rw [parseFrac, if_pos rfl, spanDigits_append fracChars_all_digits hr]
  cases hfc : fracChars k fp with
  | nil => exact absurd hfc (fracChars_ne_nil k fp)
  | cons c cs =>
    simp only
    rw [← hfc, valOfDigits_fracChars, fracChars_length hfp hk]

theorem parseFrac_no {l : List Char}
    (h : ∀ c, l.head? = some c → c ≠ '.') : parseFrac l = (0, 0, l) := by
  cases l with
  | nil => rfl
  | cons c cs => rw [parseFrac, if_neg (h c rfl)]

theorem parseExp_no {l : List Char}
    (h : ∀ c, l.head? = some c → c ≠ 'e' ∧ c ≠ 'E') : parseExp l = (0, l) := by
  cases l with
  | nil => rfl
  | cons c cs =>
    have hc := h c rfl
    cases cs with
    | nil => simp [parseExp, hc.1, hc.2]
    | cons e cs2 => simp [parseExp, hc.1, hc.2]

theorem decExpOf_dvd {d k : ℕ} (h : decExpOf d = some k) (hd : d ≠ 0) :
    d ∣ 10 ^ k := by
  rw [decExpOf] at h
  have := List.find?_some h
  rw [beq_iff_eq] at this
  exact Nat.dvd_of_mod_eq_zero this
theorem scanNumber_core {k ip fp : ℕ} (hfp : fp < 10 ^ k) (rest : List Char)
    (hr : ∀ c, rest.head? = some c →
      isDig c = false ∧ c ≠ '.' ∧ c ≠ 'e' ∧ c ≠ 'E') :
    parseIntPart ((natChars ip ++ (if k = 0 then [] else '.' :: fracChars k fp)) ++ rest)
      = some (ip, (if k = 0 then [] else '.' :: fracChars k fp) ++ rest) ∧
    parseFrac ((if k = 0 then [] else '.' :: fracChars k fp) ++ rest) = (fp, k, rest) := by
  by_cases hk : k = 0
  · subst hk
    have hfp0 : fp = 0 := by omega
    subst hfp0
    simp only [if_true, List.append_nil, List.nil_append]
    exact ⟨parseIntPart_append ip rest (fun c hc => (hr c hc).1),
      parseFrac_no (fun c hc => (hr c hc).2.1)⟩
  · simp only [hk, if_false]
    constructor
    · rw [List.append_assoc]
      refine parseIntPart_append ip ('.' :: (fracChars k fp ++ rest)) ?_
      intro c hc
      cases hc
      decide
    · rw [List.cons_append]
      exact parseFrac_fracChars (by omega) hfp rest (fun c hc => (hr c hc).1)

/-- Scanning the decimal rendering of `m / 10 ^ k` recovers that rational. -/
theorem parseNumber_core (m : ℤ) (k : ℕ) (rest : List Char)
    (hr : ∀ c, rest.head? = some c →
      isDig c = false ∧ c ≠ '.' ∧ c ≠ 'e' ∧ c ≠ 'E') :
    parseNumber (((if m < 0 then
        '-' :: (natChars (m.natAbs / 10 ^ k) ++
          (if k = 0 then [] else '.' :: fracChars k (m.natAbs % 10 ^ k)))
      else natChars (m.natAbs / 10 ^ k) ++
          (if k = 0 then [] else '.' :: fracChars k (m.natAbs % 10 ^ k)))) ++ rest)
      = some ((m : ℚ) / (10 : ℚ) ^ k, rest) := by
  have hpow : (0 : ℕ) < 10 ^ k := pow_pos (by omega) k
  have h10 : ((10 : ℚ) ^ k) ≠ 0 := by positivity
  obtain ⟨hint, hfrac⟩ := @scanNumber_core k (m.natAbs / 10 ^ k)
    (m.natAbs % 10 ^ k) (Nat.mod_lt _ hpow) rest hr
  have hexp : parseExp rest = (0, rest) :=
    parseExp_no (fun c hc => ⟨(hr c hc).2.2.1, (hr c hc).2.2.2⟩)
  have hmag : ((m.natAbs / 10 ^ k : ℕ) : ℚ) + ((m.natAbs % 10 ^ k : ℕ) : ℚ) / (10 : ℚ) ^ k
      = ((m.natAbs : ℕ) : ℚ) / (10 : ℚ) ^ k := by
    rw [eq_div_iff h10, add_mul, div_mul_cancel₀ _ h10]
    have hsplit := Nat.div_add_mod m.natAbs (10 ^ k)
    rw [Nat.mul_comm (10 ^ k) (m.natAbs / 10 ^ k)] at hsplit
    exact_mod_cast hsplit
  by_cases hneg : m < 0
  · rw [if_pos hneg, List.cons_append, parseNumber]
    have habs : ((m.natAbs : ℕ) : ℚ) = -((m : ℤ) : ℚ) := by
      rw [Int.cast_natAbs, Int.cast_abs,
        abs_of_neg (show ((m : ℤ) : ℚ) < 0 by exact_mod_cast hneg)]
    simp only [eq_self_iff_true, ite_true, hint, hfrac, hexp, zpow_zero, mul_one,
      Option.some.injEq, Prod.mk.injEq]
    exact ⟨by rw [hmag, habs]; ring, trivial⟩
  · rw [if_neg hneg]
    obtain ⟨c, t, hct, hcd⟩ := natChars_head_digit (m.natAbs / 10 ^ k)
    have hcne : c ≠ '-' := ne_of_isDig hcd (by decide)
    have habs : ((m.natAbs : ℕ) : ℚ) = ((m : ℤ) : ℚ) := by
      rw [Int.cast_natAbs, Int.cast_abs,
        abs_of_nonneg (show (0:ℚ) ≤ ((m : ℤ) : ℚ) by exact_mod_cast not_lt.mp hneg)]
    rw [List.append_assoc, hct, List.cons_append, parseNumber]
    simp only [hcne, ite_false]
    rw [← List.cons_append, ← hct, ← List.append_assoc]
    simp only [hint, hfrac, hexp, zpow_zero, mul_one, Option.some.injEq, Prod.mk.injEq,
      Bool.false_eq_true, if_false]
    exact ⟨by rw [hmag, habs], trivial⟩

/-- Reading back the decimal rendering of a rational recovers it exactly. -/
theorem parseNumber_renderNum {q : ℚ} {ds : List Char} (h : renderNum q = some ds)
    (rest : List Char)
    (hr : ∀ c, rest.head? = some c →
      isDig c = false ∧ c ≠ '.' ∧ c ≠ 'e' ∧ c ≠ 'E') :
    parseNumber (ds ++ rest) = some (q, rest) := by
  rw [renderNum] at h
  cases hdk : decExpOf q.den with
  | none => rw [hdk] at h; cases h
  | some k =>
    rw [hdk] at h
    simp only [Option.some.injEq] at h
    subst h
    have hden : q.den ≠ 0 := q.den_nz
    have hdvd : q.den ∣ 10 ^ k := decExpOf_dvd hdk hden
    have hdQ : (q.den : ℚ) ≠ 0 := Nat.cast_ne_zero.mpr hden
    have h10 : ((10 : ℚ) ^ k) ≠ 0 := by positivity
    have hD : (10 ^ k / q.den) * q.den = 10 ^ k := Nat.div_mul_cancel hdvd
    have hDQ : ((10 ^ k / q.den : ℕ) : ℚ) * (q.den : ℚ) = (10 : ℚ) ^ k := by
      exact_mod_cast congrArg (fun n : ℕ => (n : ℚ)) hD
    have hq : ((q.num * ((10 ^ k / q.den : ℕ) : ℤ) : ℤ) : ℚ) / (10 : ℚ) ^ k = q := by
      rw [div_eq_iff h10, ← hDQ, Int.cast_mul, Int.cast_natCast,
        ← Rat.mul_den_eq_num q]
      ring
    rw [parseNumber_core (q.num * ((10 ^ k / q.den : ℕ) : ℤ)) k rest hr, hq]

/-! ## String-escape round trip -/

theorem hexVal_hexChar {d : ℕ} (h : d < 16) : hexVal (hexChar d) = some d := by
  interval_cases d <;> decide

theorem escapeChars_cons (c : Char) (s : List Char) :
    escapeChars (c :: s) = escChar c ++ escapeChars s := by
  simp [escapeChars]

theorem parseStringBody_escape (s rest : List Char) :
    parseStringBody (escapeChars s ++ '"' :: rest) = some (s, rest) := by
  induction s with
  | nil =>
    have hnil : escapeChars [] = [] := rfl
    rw [hnil, List.nil_append, parseStringBody.eq_def]
    simp
  | cons c s ih =>
    rw [escapeChars_cons, List.append_assoc]
    by_cases h1 : c = '"'
    · subst h1
      rw [parseStringBody.eq_def]
      simp [escChar, escDecode, ih]
    by_cases h2 : c = '\\'
    · subst h2
      rw [parseStringBody.eq_def]
      simp [escChar, escDecode, ih]
    by_cases h3 : c = '\n'
    · subst h3
      rw [parseStringBody.eq_def]
      simp [escChar, escDecode, ih]
    by_cases h4 : c = '\t'
    · subst h4
      rw [parseStringBody.eq_def]
      simp [escChar, escDecode, ih]
    by_cases h5 : c = '\r'
    · subst h5
      rw [parseStringBody.eq_def]
      simp [escChar, escDecode, ih]
    by_cases h6 : c.toNat = 8
    · have hc : c = Char.ofNat 8 := by rw [← h6, Char.ofNat_toNat]
      subst hc
      rw [parseStringBody.eq_def]
      simp [escChar, escDecode, ih]
    by_cases h7 : c.toNat = 12
    · have hc : c = Char.ofNat 12 := by rw [← h7, Char.ofNat_toNat]
      subst hc
      rw [parseStringBody.eq_def]
      simp [escChar, escDecode, ih]
    by_cases h8 : c.toNat < 32
    · have hesc : escChar c =
          ['\\', 'u', '0', '0', hexChar (c.toNat / 16), hexChar (c.toNat % 16)] := by
        rw [escChar, if_neg h1, if_neg h2, if_neg h3, if_neg h4, if_neg h5]
        rw [if_neg h6, if_neg h7, if_pos h8]
      rw [hesc]
      have hhi : c.toNat / 16 < 16 := by omega
      have hlo : c.toNat % 16 < 16 := Nat.mod_lt _ (by omega)
      have hcode : ((0 * 16 + 0) * 16 + c.toNat / 16) * 16 + c.toNat % 16 = c.toNat := by
        have := Nat.div_add_mod c.toNat 16
        omega
      have hvalid : (c.toNat).isValidChar := Or.inl (by omega)
      have hcode2 : c.toNat / 16 * 16 + c.toNat % 16 = c.toNat := by omega
      have h00 : hexVal '0' = some 0 := rfl
      rw [parseStringBody.eq_def]
      simp only [List.cons_append, List.nil_append]
      simp [h00, hexVal_hexChar hhi, hexVal_hexChar hlo, hcode2, hvalid, ih,
        Char.ofNat_toNat]
    · have hesc : escChar c = [c] := by
        rw [escChar, if_neg h1, if_neg h2, if_neg h3, if_neg h4, if_neg h5]
        rw [if_neg h6, if_neg h7, if_neg h8]
      rw [hesc]
      rw [parseStringBody.eq_def]
      simp only [List.cons_append, List.nil_append]
      simp [h1, h2, show ¬(c.toNat < 32) from by simpa using h8, ih]

theorem parseStringBody_renderStr (s rest : List Char) :
    ∃ t, renderStr s ++ rest = '"' :: t ∧ parseStringBody t = some (s, rest) := by
  refine ⟨escapeChars s ++ '"' :: rest, ?_, parseStringBody_escape s rest⟩
  simp [renderStr]

/-! ## Value-level round trip for grading payloads -/

theorem renderNum_head {q : ℚ} {ds : List Char} (h : renderNum q = some ds) :
    ∃ c t, ds = c :: t ∧ (c = '-' ∨ isDig c = true) := by
  rw [renderNum] at h
  cases hdk : decExpOf q.den with
  | none => rw [hdk] at h; cases h
  | some k =>
    rw [hdk] at h
    simp only [Option.some.injEq] at h
    subst h
    by_cases hneg : q.num * ((10 ^ k / q.den : ℕ) : ℤ) < 0
    · exact ⟨'-', _, by rw [if_pos hneg], Or.inl rfl⟩
    · rw [if_neg hneg]
      obtain ⟨c, t, hct, hcd⟩ := natChars_head_digit
        ((q.num * ((10 ^ k / q.den : ℕ) : ℤ)).natAbs / 10 ^ k)
      exact ⟨c, t ++ _, by rw [hct, List.cons_append], Or.inr hcd⟩

theorem parseValue_str (f : ℕ) (s rest : List Char) :
    parseValue (f + 1) (renderStr s ++ rest) = some (.str s, rest) := by
  obtain ⟨t, ht, hp⟩ := parseStringBody_renderStr s rest
  rw [ht, parseValue, skipWs_cons_of_not_ws t (by decide)]
  simp [hp]

theorem parseValue_true (f : ℕ) (rest : List Char) :
    parseValue (f + 1) ("true".toList ++ rest) = some (.bool true, rest) := by
  rw [show ("true".toList ++ rest) = 't' :: ("rue".toList ++ rest) from rfl]
  rw [parseValue, skipWs_cons_of_not_ws _ (by decide)]
  simp [startsWithL]

theorem parseValue_false (f : ℕ) (rest : List Char) :
    parseValue (f + 1) ("false".toList ++ rest) = some (.bool false, rest) := by
  rw [show ("false".toList ++ rest) = 'f' :: ("alse".toList ++ rest) from rfl]
  rw [parseValue, skipWs_cons_of_not_ws _ (by decide)]
  simp [startsWithL]

theorem parseValue_num (f : ℕ) {q : ℚ} {ds : List Char} (h : renderNum q = some ds)
    (rest : List Char)
    (hr : ∀ c, rest.head? = some c →
      isDig c = false ∧ c ≠ '.' ∧ c ≠ 'e' ∧ c ≠ 'E') :
    parseValue (f + 1) (ds ++ rest) = some (.num q, rest) := by
  obtain ⟨c, t, hct, hc⟩ := renderNum_head h
  have hnum := parseNumber_renderNum h rest hr
  subst hct
  have hws : jsonWs c = false := by
    rcases hc with rfl | hc
    · decide
    · exact isDig_not_ws hc
  have hne : c ≠ '"' ∧ c ≠ '{' ∧ c ≠ '[' ∧ c ≠ 'n' ∧ c ≠ 't' ∧ c ≠ 'f' := by
    rcases hc with rfl | hc
    · refine ⟨by decide, by decide, by decide, by decide, by decide, by decide⟩
    · exact ⟨ne_of_isDig hc (by decide), ne_of_isDig hc (by decide),
        ne_of_isDig hc (by decide), ne_of_isDig hc (by decide),
        ne_of_isDig hc (by decide), ne_of_isDig hc (by decide)⟩
  rw [List.cons_append, parseValue, skipWs_cons_of_not_ws _ hws]
  simp only [hne.1, hne.2.1, hne.2.2.1, hne.2.2.2.1, hne.2.2.2.2.1, hne.2.2.2.2.2,
    ite_false, if_false]
  rw [← List.cons_append, hnum]
  rfl

theorem parseMembers_step (f : ℕ) (key vtxt mid : List Char) (v : Json)
    (acc : List (List Char × Json))
    (hval : parseValue f (vtxt ++ mid) = some (v, mid)) :
    parseMembers (f + 1) ((renderStr key ++ ':' :: vtxt) ++ mid) acc =
      (match skipWs mid with
       | ',' :: rest5 => parseMembers f rest5 (acc ++ [(key, v)])
       | '}' :: rest5 => some (.obj (acc ++ [(key, v)]), rest5)
       | _ => none) := by
  obtain ⟨t, ht, hp⟩ := parseStringBody_renderStr key (':' :: (vtxt ++ mid))
  have hshape : (renderStr key ++ ':' :: vtxt) ++ mid =
      '"' :: t := by
    rw [← ht, List.append_assoc, List.cons_append]
  rw [hshape, parseMembers, skipWs_cons_of_not_ws t (by decide)]
  simp only [hp]
  rw [skipWs_cons_of_not_ws _ (by decide)]
  simp only [hval]

theorem parseMembers_step_comma (f : ℕ) (key vtxt tail : List Char) (v : Json)
    (acc : List (List Char × Json))
    (hval : parseValue f (vtxt ++ ',' :: tail) = some (v, ',' :: tail)) :
    parseMembers (f + 1) ((renderStr key ++ ':' :: vtxt) ++ ',' :: tail) acc =
      parseMembers f tail (acc ++ [(key, v)]) := by
  rw [parseMembers_step f key vtxt (',' :: tail) v acc hval]
  rw [skipWs_cons_of_not_ws _ (by decide)]
  split
  · rename_i r5 h
    injection h with h1 h2
    subst h2
    rfl
  · rename_i r5 h
    injection h with h1 h2
    exact absurd h1 (by decide)
  · rename_i h1 h2
    exact absurd rfl (h1 tail)

theorem parseMembers_step_brace (f : ℕ) (key vtxt tail : List Char) (v : Json)
    (acc : List (List Char × Json))
    (hval : parseValue f (vtxt ++ '}' :: tail) = some (v, '}' :: tail)) :
    parseMembers (f + 1) ((renderStr key ++ ':' :: vtxt) ++ '}' :: tail) acc =
      some (.obj (acc ++ [(key, v)]), tail) := by
  rw [parseMembers_step f key vtxt ('}' :: tail) v acc hval]
  rw [skipWs_cons_of_not_ws _ (by decide)]
  split
  · rename_i r5 h
    injection h with h1 h2
    exact absurd h1 (by decide)
  · rename_i r5 h
    injection h with h1 h2
    subst h2
    rfl
  · rename_i h1 h2
    exact absurd rfl (h2 tail)

theorem parseValue_brace (fuel : ℕ) (t : List Char) :
    parseValue (fuel + 1) ('{' :: t) =
      (match skipWs t with
       | '}' :: rest2 => some (.obj [], rest2)
       | _ => parseMembers fuel t []) := by
  rw [parseValue, skipWs_cons_of_not_ws _ (by decide)]
  simp

theorem parseValue_brace_mem (fuel : ℕ) (c : Char) (t : List Char)
    (hw : jsonWs c = false) (hne : c ≠ '\x7d') :
    parseValue (fuel + 1) ('\x7b' :: c :: t) = parseMembers fuel (c :: t) [] := by
  rw [parseValue_brace, skipWs_cons_of_not_ws _ hw]
  split
  · rename_i r2 h
    injection h with h1 h2
    exact absurd h1 hne
  · rfl

set_option maxHeartbeats 800000 in
theorem parseValue_grade (g : QuestionGrade) {txt : List Char}
    (h : dumpGrade g = some txt) (rest : List Char) (n : ℕ) :
    parseValue (n + 6) (txt ++ rest) = some (gradeJson g, rest) := by
  rw [dumpGrade] at h
  cases hsc : renderNum g.score with
  | none => rw [hsc] at h; cases h
  | some sc =>
    rw [hsc] at h
    simp only [Option.some.injEq] at h
    subst h
    have hv4 : parseValue (n + 1)
        ((if g.needs_review then "true".toList else "false".toList) ++ '}' :: rest) =
        some (Json.bool g.needs_review, '}' :: rest) := by
      cases hb : g.needs_review
      · simp only [if_false, Bool.false_eq_true]
        exact parseValue_false n ('}' :: rest)
      · simp only [if_true]
        exact parseValue_true n ('}' :: rest)
    have s4 : ∀ acc, parseMembers (n + 2)
        ((renderStr "needs_review".toList ++ ':' ::
          (if g.needs_review then "true".toList else "false".toList)) ++ '}' :: rest) acc =
        some (Json.obj (acc ++ [("needs_review".toList, Json.bool g.needs_review)]), rest) := by
      intro acc
      exact parseMembers_step_brace (n + 1) _ _ _ _ acc hv4
    have s3 : ∀ acc, parseMembers (n + 3)
        ((renderStr "feedback".toList ++ ':' :: renderStr g.feedback) ++
          (',' :: ((renderStr "needs_review".toList ++ ':' ::
            (if g.needs_review then "true".toList else "false".toList)) ++ '}' :: rest))) acc =
        some (Json.obj ((acc ++ [("feedback".toList, Json.str g.feedback)]) ++
          [("needs_review".toList, Json.bool g.needs_review)]), rest) := by
      intro acc
      rw [parseMembers_step_comma (n + 2) _ _ _ _ acc
        (parseValue_str (n + 1) g.feedback _)]
      exact s4 (acc ++ [("feedback".toList, Json.str g.feedback)])
    have s2 : ∀ acc, parseMembers (n + 4)
        ((renderStr "deduction_details".toList ++ ':' :: renderStr g.deduction_details) ++
          (',' :: ((renderStr "feedback".toList ++ ':' :: renderStr g.feedback) ++
          (',' :: ((renderStr "needs_review".toList ++ ':' ::
            (if g.needs_review then "true".toList else "false".toList)) ++ '}' :: rest))))) acc =
        some (Json.obj (((acc ++ [("deduction_details".toList, Json.str g.deduction_details)]) ++
          [("feedback".toList, Json.str g.feedback)]) ++
          [("needs_review".toList, Json.bool g.needs_review)]), rest) := by
      intro acc
      rw [parseMembers_step_comma (n + 3) _ _ _ _ acc
        (parseValue_str (n + 2) g.deduction_details _)]
      exact s3 (acc ++ [("deduction_details".toList, Json.str g.deduction_details)])
    have hv1 : parseValue (n + 4)
        (sc ++ (',' :: ((renderStr "deduction_details".toList ++
          ':' :: renderStr g.deduction_details) ++
          (',' :: ((renderStr "feedback".toList ++ ':' :: renderStr g.feedback) ++
          (',' :: ((renderStr "needs_review".toList ++ ':' ::
            (if g.needs_review then "true".toList else "false".toList)) ++ '}' :: rest))))))) =
        some (Json.num g.score, ',' :: ((renderStr "deduction_details".toList ++
          ':' :: renderStr g.deduction_details) ++
          (',' :: ((renderStr "feedback".toList ++ ':' :: renderStr g.feedback) ++
          (',' :: ((renderStr "needs_review".toList ++ ':' ::
            (if g.needs_review then "true".toList else "false".toList)) ++ '}' :: rest)))))) := by
      refine parseValue_num (n + 3) hsc _ ?_
      intro c hc
      cases hc
      refine ⟨by decide, by decide, by decide, by decide⟩
    have s1 : parseMembers (n + 5)
        ((renderStr "score".toList ++ ':' :: sc) ++
          (',' :: ((renderStr "deduction_details".toList ++
            ':' :: renderStr g.deduction_details) ++
          (',' :: ((renderStr "feedback".toList ++ ':' :: renderStr g.feedback) ++
          (',' :: ((renderStr "needs_review".toList ++ ':' ::
            (if g.needs_review then "true".toList else "false".toList)) ++ '}' :: rest))))))) [] =
        some (gradeJson g, rest) := by
      rw [parseMembers_step_comma (n + 4) _ _ _ _ [] hv1]
      refine (s2 ([] ++ [("score".toList, Json.num g.score)])).trans ?_
      simp [gradeJson]
    obtain ⟨t1, ht1, -⟩ := parseStringBody_renderStr "score".toList
      (':' :: (sc ++ (',' :: ((renderStr "deduction_details".toList ++
        ':' :: renderStr g.deduction_details) ++
        (',' :: ((renderStr "feedback".toList ++ ':' :: renderStr g.feedback) ++
        (',' :: ((renderStr "needs_review".toList ++ ':' ::
          (if g.needs_review then "true".toList else "false".toList)) ++ '}' :: rest))))))))
    have hflat : ('{' :: (renderStr "score".toList ++ ':' :: sc ++
        ',' :: renderStr "deduction_details".toList ++ ':' ::
          renderStr g.deduction_details ++
        ',' :: renderStr "feedback".toList ++ ':' :: renderStr g.feedback ++
        ',' :: renderStr "needs_review".toList ++ ':' ::
          (if g.needs_review then "true".toList else "false".toList)) ++ ['}']) ++ rest =
        '{' :: ((renderStr "score".toList ++ ':' :: sc) ++
          (',' :: ((renderStr "deduction_details".toList ++
            ':' :: renderStr g.deduction_details) ++
          (',' :: ((renderStr "feedback".toList ++ ':' :: renderStr g.feedback) ++
          (',' :: ((renderStr "needs_review".toList ++ ':' ::
            (if g.needs_review then "true".toList else "false".toList)) ++ '}' :: rest))))))) := by
      simp [List.append_assoc]
    rw [hflat]
    have hcons : (renderStr "score".toList ++ ':' :: sc) ++
        (',' :: ((renderStr "deduction_details".toList ++
          ':' :: renderStr g.deduction_details) ++
        (',' :: ((renderStr "feedback".toList ++ ':' :: renderStr g.feedback) ++
        (',' :: ((renderStr "needs_review".toList ++ ':' ::
          (if g.needs_review then "true".toList else "false".toList)) ++ '}' :: rest))))))
        = '"' :: t1 := by
      rw [← ht1]
      simp [renderStr, List.append_assoc]
    rw [hcons, show (n + 6) = (n + 5) + 1 from rfl,
      parseValue_brace_mem (n + 5) _ _ (by decide) (by decide)]
    rw [← hcons]
    exact s1

theorem dumpMembers_head (p : List (List Char × QuestionGrade)) (hne : p ≠ [])
    {ms : List Char} (h : dumpMembers p = some ms) : ∃ t, ms = '"' :: t := by
  cases p with
  | nil => exact absurd rfl hne
  | cons hd tl =>
    obtain ⟨key, g⟩ := hd
    rw [dumpMembers] at h
    cases hg : dumpGrade g with
    | none => rw [hg] at h; cases h
    | some gtxt =>
      cases hr : dumpMembers tl with
      | none => rw [hg, hr] at h; cases h
      | some rtxt =>
        rw [hg, hr] at h
        simp only [Option.some.injEq] at h
        subst h
        refine ⟨escapeChars key ++ '"' :: ':' ::
          (gtxt ++ if tl.isEmpty then [] else ',' :: rtxt), ?_⟩
        simp [renderStr]

theorem dumpMembers_length (p : List (List Char × QuestionGrade)) :
    ∀ {ms : List Char}, dumpMembers p = some ms → p.length ≤ ms.length := by
  induction p with
  | nil => intro ms _; simp
  | cons hd tl ih =>
    intro ms h
    obtain ⟨key, g⟩ := hd
    rw [dumpMembers] at h
    cases hg : dumpGrade g with
    | none => rw [hg] at h; cases h
    | some gtxt =>
      cases hr : dumpMembers tl with
      | none => rw [hg, hr] at h; cases h
      | some rtxt =>
        rw [hg, hr] at h
        simp only [Option.some.injEq] at h
        subst h
        cases tl with
        | nil =>
          simp [renderStr]
        | cons hd2 tl2 =>
          have hlen := ih hr
          simp only [List.length_cons] at hlen ⊢
          simp only [List.isEmpty_cons, if_neg]
          simp [renderStr, List.length_append]
          omega

theorem parseMembers_dumpMembers (rest : List Char) :
    ∀ (p : List (List Char × QuestionGrade)) (f : ℕ), p ≠ [] →
      6 + p.length ≤ f → ∀ (ms : List Char), dumpMembers p = some ms →
      ∀ (acc : List (List Char × Json)),
      parseMembers f (ms ++ '}' :: rest) acc =
        some (Json.obj (acc ++ p.map (fun kg => (kg.1, gradeJson kg.2))), rest) := by
  intro p
  induction p with
  | nil => intro f hne; exact absurd rfl hne
  | cons hd tl ih =>
    intro f hne hf ms hms acc
    obtain ⟨key, g⟩ := hd
    rw [dumpMembers] at hms
    cases hg : dumpGrade g with
    | none => rw [hg] at hms; cases hms
    | some gtxt =>
      cases hr : dumpMembers tl with
      | none => rw [hg, hr] at hms; cases hms
      | some rtxt =>
        rw [hg, hr] at hms
        simp only [Option.some.injEq] at hms
        subst hms
        simp only [List.length_cons] at hf
        obtain ⟨m, rfl⟩ : ∃ m, f = m + 6 + 1 := ⟨f - 7, by omega⟩
        cases tl with
        | nil =>
          rw [show (renderStr key ++ ':' :: gtxt ++
              (if ([] : List (List Char × QuestionGrade)).isEmpty
                then [] else ',' :: rtxt)) ++ '}' :: rest =
              (renderStr key ++ ':' :: gtxt) ++ '}' :: rest from by simp]
          rw [parseMembers_step_brace (m + 6) key gtxt rest (gradeJson g) acc
            (parseValue_grade g hg ('}' :: rest) m)]
          simp
        | cons hd2 tl2 =>
          rw [show (renderStr key ++ ':' :: gtxt ++
              (if (hd2 :: tl2).isEmpty then [] else ',' :: rtxt)) ++ '}' :: rest =
              (renderStr key ++ ':' :: gtxt) ++
                ',' :: (rtxt ++ '}' :: rest) from by simp]
          rw [parseMembers_step_comma (m + 6) key gtxt (rtxt ++ '}' :: rest)
            (gradeJson g) acc (parseValue_grade g hg _ m)]
          refine (ih (m + 6) (by simp) (by simp only [List.length_cons] at hf ⊢; omega)
            rtxt hr (acc ++ [(key, gradeJson g)])).trans ?_
          simp

theorem json_loads_dumpsPayload (p : List (List Char × QuestionGrade))
    {txt : List Char} (h : dumpsPayload p = some txt) :
    json_loads txt = some (payloadJson p) := by
  rw [dumpsPayload] at h
  cases hms : dumpMembers p with
  | none => rw [hms] at h; cases h
  | some ms =>
    rw [hms] at h
    simp only [Option.map_some', Option.some.injEq] at h
    subst h
    cases p with
    | nil =>
      rw [show dumpMembers [] = some [] from rfl, Option.some.injEq] at hms
      subst hms
      rfl
    | cons q0 qs =>
      have hne : q0 :: qs ≠ [] := by simp
      obtain ⟨t, rfl⟩ := dumpMembers_head (q0 :: qs) hne hms
      have hlen := dumpMembers_length (q0 :: qs) hms
      have hv : parseValue (2 * ('{' :: (('"' :: t) ++ ['}'])).length + 1 + 1)
          ('{' :: (('"' :: t) ++ ['}'])) = some (payloadJson (q0 :: qs), []) := by
        rw [show ('{' :: (('"' :: t) ++ ['}'])) = '{' :: '"' :: (t ++ ['}']) from by simp]
        rw [parseValue_brace_mem _ '"' (t ++ ['}']) (by decide) (by decide)]
        rw [show ('"' :: (t ++ ['}'])) = ('"' :: t) ++ '}' :: [] from by simp]
        refine (parseMembers_dumpMembers [] (q0 :: qs) _ hne ?_ ('"' :: t) hms []).trans ?_
        · simp only [List.length_cons, List.length_append] at hlen ⊢
          omega
        · simp [payloadJson]
      rw [json_loads]
      rw [show 2 * ('{' :: (('"' :: t) ++ ['}'])).length + 2 =
        2 * ('{' :: (('"' :: t) ++ ['}'])).length + 1 + 1 from rfl]
      rw [hv]
      rfl

/-! ## Normalizer-level lemmas -/

theorem strip_thinking_core_no {l : List Char}
    (h : findSub thinkOpenPat l = none) :
    ∀ fuel, OllamaGrader.strip_thinking_core fuel l = l := by
  intro fuel
  cases fuel with
  | zero => rfl
  | succ f => rw [OllamaGrader.strip_thinking_core, h]

theorem findSub_extend_none {p : List Char} (q : List Char) :
    ∀ (l : List Char), p ≠ [] → findSub p l = none → findSub (p ++ q) l = none := by
  intro l
  induction l with
  | nil =>
    intro hp _
    exact findSub_nil_of_ne_nil (by simp [hp])
  | cons c cs ih =>
    intro hp h
    rw [findSub] at h ⊢
    by_cases hsw : startsWithL p (c :: cs) = true
    · rw [hsw] at h
      cases h
    · have hsw2 : startsWithL (p ++ q) (c :: cs) = false := by
        cases hq : startsWithL (p ++ q) (c :: cs)
        · rfl
        · exact absurd (startsWithL_of_append hq) hsw
      rw [hsw2]
      simp only [Bool.false_eq_true, if_false]
      rw [if_neg hsw] at h
      simp only [Option.map_eq_none'] at h ⊢
      exact ih hp h

theorem pyStrip_dump {p : List (List Char × QuestionGrade)} {txt : List Char}
    (h : dumpsPayload p = some txt) : pyStrip txt = txt := by
  rw [dumpsPayload] at h
  cases hms : dumpMembers p with
  | none => rw [hms] at h; cases h
  | some ms =>
    rw [hms] at h
    simp only [Option.map_some', Option.some.injEq] at h
    subst h
    exact pyStrip_of_ends ms (by decide) (by decide)

theorem dumpsPayload_shape {p : List (List Char × QuestionGrade)} {txt : List Char}
    (h : dumpsPayload p = some txt) :
    ∃ ms, dumpMembers p = some ms ∧ txt = '{' :: (ms ++ ['}']) := by
  rw [dumpsPayload] at h
  cases hms : dumpMembers p with
  | none => rw [hms] at h; cases h
  | some ms =>
    rw [hms] at h
    simp only [Option.map_some', Option.some.injEq] at h
    exact ⟨ms, rfl, h.symm⟩

theorem gemini_parse_dump (p : List (List Char × QuestionGrade)) {txt : List Char}
    (h : dumpsPayload p = some txt) :
    GeminiGrader.parse_response txt = some (payloadJson p) := by
  obtain ⟨ms, hms, rfl⟩ := dumpsPayload_shape h
  have hps : pyStrip ('{' :: (ms ++ ['}'])) = '{' :: (ms ++ ['}']) :=
    pyStrip_of_ends ms (by decide) (by decide)
  have h1 : startsWithL fenceJsonPat ('{' :: (ms ++ ['}'])) = false := by
    rw [show fenceJsonPat = '`' :: "``json".toList from rfl]
    simp [startsWithL]
  have h2 : startsWithL fencePat ('{' :: (ms ++ ['}'])) = false := by
    rw [show fencePat = '`' :: "``".toList from rfl]
    simp [startsWithL]
  have h3 : endsWithL fencePat ('{' :: (ms ++ ['}'])) = false := by
    simp [endsWithL, startsWithL, show fencePat = ['`', '`', '`'] from rfl]
  rw [GeminiGrader.parse_response]
  simp only [hps, h1, h2, h3, Bool.false_eq_true, if_false]
  exact json_loads_dumpsPayload p h

theorem ollama_parse_dump (p : List (List Char × QuestionGrade)) {txt : List Char}
    (h : dumpsPayload p = some txt)
    (hthink : findSub thinkOpenPat txt = none)
    (hfence : findSub fencePat txt = none) :
    OllamaGrader.parse_response txt = some (payloadJson p) := by
  obtain ⟨ms, hms, rfl⟩ := dumpsPayload_shape h
  have hps : pyStrip ('{' :: (ms ++ ['}'])) = '{' :: (ms ++ ['}']) :=
    pyStrip_of_ends ms (by decide) (by decide)
  have hst : OllamaGrader.strip_thinking ('{' :: (ms ++ ['}'])) =
      '{' :: (ms ++ ['}']) := by
    rw [OllamaGrader.strip_thinking, strip_thinking_core_no hthink, hps]
  have hc2 : containsSub fencePat ('{' :: (ms ++ ['}'])) = false := by
    rw [containsSub, hfence]
    rfl
  have hc1 : containsSub fenceJsonPat ('{' :: (ms ++ ['}'])) = false := by
    rw [containsSub, show fenceJsonPat = fencePat ++ "json".toList from rfl,
      findSub_extend_none "json".toList _ (by decide) hfence]
    rfl
  have hrf : rfindChar '}' ('{' :: (ms ++ ['}'])) = some (ms.length + 1) := by
    rw [show ('{' :: (ms ++ ['}'])) = ('{' :: ms) ++ ['}'] from by simp]
    rw [rfindChar_append_last]
    simp
  have hfb : findSub ['{'] ('{' :: (ms ++ ['}'])) = some 0 := findSub_head_self _ _
  have hsl : sliceL ('{' :: (ms ++ ['}'])) 0 (ms.length + 1 + 1) =
      '{' :: (ms ++ ['}']) := by
    rw [sliceL, List.drop_zero, Nat.sub_zero]
    refine List.take_of_length_le ?_
    simp
  rw [OllamaGrader.parse_response]
  simp only [hst, hc1, hc2, Bool.false_eq_true, if_false, hps, hfb, hrf]
  simp only [Nat.zero_lt_succ, if_true, hsl]
  exact json_loads_dumpsPayload p h

theorem strip_thinking_core_once (pre tb rest : List Char) (fuel : ℕ)
    (hpre : '<' ∉ pre) (htb : '<' ∉ tb)
    (hrest : findSub thinkOpenPat rest = none) (hfuel : 1 ≤ fuel) :
    OllamaGrader.strip_thinking_core fuel
      (pre ++ (thinkOpenPat ++ (tb ++ (thinkClosePat ++ rest)))) = pre ++ rest := by
  obtain ⟨f, rfl⟩ : ∃ f, fuel = f + 1 := ⟨fuel - 1, by omega⟩
  rw [OllamaGrader.strip_thinking_core]
  have h1 : findSub thinkOpenPat
      (pre ++ (thinkOpenPat ++ (tb ++ (thinkClosePat ++ rest)))) =
      some pre.length := by
    rw [show thinkOpenPat = '<' :: "think>".toList from rfl]
    rw [findSub_append_of_notMem pre _ hpre, findSub_cons_self]
    simp
  have h2 : (pre ++ (thinkOpenPat ++ (tb ++ (thinkClosePat ++ rest)))).drop
      (pre.length + 7) = tb ++ (thinkClosePat ++ rest) := by
    rw [show pre.length + 7 = (pre ++ thinkOpenPat).length from by
      simp [show thinkOpenPat.length = 7 from rfl]]
    rw [← List.append_assoc, List.drop_left]
  have h3 : findSub thinkClosePat (tb ++ (thinkClosePat ++ rest)) =
      some tb.length := by
    rw [show thinkClosePat = '<' :: "/think>".toList from rfl]
    rw [findSub_append_of_notMem tb _ htb, findSub_cons_self]
    simp
  have h4 : (pre ++ (thinkOpenPat ++ (tb ++ (thinkClosePat ++ rest)))).take
      pre.length = pre := List.take_left pre _
  have h5 : (pre ++ (thinkOpenPat ++ (tb ++ (thinkClosePat ++ rest)))).drop
      (pre.length + 7 + tb.length + 8) = rest := by
    rw [show pre.length + 7 + tb.length + 8 =
        (((pre ++ thinkOpenPat) ++ tb) ++ thinkClosePat).length from by
      simp [show thinkOpenPat.length = 7 from rfl,
        show thinkClosePat.length = 8 from rfl]
      omega]
    rw [show pre ++ (thinkOpenPat ++ (tb ++ (thinkClosePat ++ rest))) =
        (((pre ++ thinkOpenPat) ++ tb) ++ thinkClosePat) ++ rest from by
      simp [List.append_assoc]]
    rw [List.drop_left]
  simp only [h1, h2, h3, h4, h5, strip_thinking_core_no hrest]

/-- C6: a raw backend response consisting of a fenced JSON payload with
free-text commentary around the fence and an embedded
reasoning-trace block is normalized by `OllamaGrader._parse_response` to
exactly the inner structured object: the trace block is removed, the
fenced block is extracted, and the text is sliced from the first opening
brace to the last closing brace before parsing.  The commentary and trace
are assumed not to contain stray marker characters, and the
whitespace-strip of the trace-free text is assumed to leave it unchanged
(its ends are not whitespace). -/
theorem C6_fenced_extract (p : List (List Char × QuestionGrade)) {txt : List Char}
    (h : dumpsPayload p = some txt)
    (pre tb mid post : List Char)
    (hpre : '<' ∉ pre) (hpreB : '`' ∉ pre) (htb : '<' ∉ tb)
    (hmid : '<' ∉ mid) (hmidB : '`' ∉ mid)
    (htxtT : '<' ∉ txt) (htxtB : '`' ∉ txt) (hpost : '<' ∉ post)
    (hstrip : pyStrip (pre ++ (mid ++ (fenceJsonPat ++
        '\n' :: (txt ++ '\n' :: (fencePat ++ post))))) =
      pre ++ (mid ++ (fenceJsonPat ++ '\n' :: (txt ++ '\n' :: (fencePat ++ post))))) :
    OllamaGrader.parse_response
      (pre ++ (thinkOpenPat ++ (tb ++ (thinkClosePat ++
        (mid ++ (fenceJsonPat ++ '\n' :: (txt ++ '\n' :: (fencePat ++ post)))))))) =
      some (payloadJson p) := by
  obtain ⟨ms, hms, rfl⟩ := dumpsPayload_shape h
  have hS : findSub thinkOpenPat (mid ++ (fenceJsonPat ++
      '\n' :: (('{' :: (ms ++ ['}'])) ++ '\n' :: (fencePat ++ post)))) = none := by
    rw [show thinkOpenPat = '<' :: "think>".toList from rfl]
    refine findSub_eq_none_of_notMem _ ?_
    intro hmem
    rcases List.mem_append.mp hmem with h1 | h1
    · exact hmid h1
    rcases List.mem_append.mp h1 with h2 | h2
    · exact absurd h2 (by decide)
    rcases List.mem_cons.mp h2 with h3 | h3
    · exact absurd h3 (by decide)
    rcases List.mem_append.mp h3 with h4 | h4
    · exact htxtT h4
    rcases List.mem_cons.mp h4 with h5 | h5
    · exact absurd h5 (by decide)
    rcases List.mem_append.mp h5 with h6 | h6
    · exact absurd h6 (by decide)
    · exact hpost h6
  have hstk : OllamaGrader.strip_thinking
      (pre ++ (thinkOpenPat ++ (tb ++ (thinkClosePat ++
        (mid ++ (fenceJsonPat ++
          '\n' :: (('{' :: (ms ++ ['}'])) ++ '\n' :: (fencePat ++ post)))))))) =
      pre ++ (mid ++ (fenceJsonPat ++
        '\n' :: (('{' :: (ms ++ ['}'])) ++ '\n' :: (fencePat ++ post)))) := by
    rw [OllamaGrader.strip_thinking]
    rw [strip_thinking_core_once pre tb _ _ hpre htb hS (by
      simp only [List.length_append, List.length_cons,
        show thinkOpenPat.length = 7 from rfl]
      omega)]
    exact hstrip
  have hfj : findSub fenceJsonPat (pre ++ (mid ++ (fenceJsonPat ++
      '\n' :: (('{' :: (ms ++ ['}'])) ++ '\n' :: (fencePat ++ post))))) =
      some (mid.length + pre.length) := by
    rw [show fenceJsonPat = '`' :: "``json".toList from rfl]
    rw [findSub_append_of_notMem pre _ hpreB]
    rw [findSub_append_of_notMem mid _ hmidB]
    rw [findSub_cons_self]
    simp
  have hcontains : containsSub fenceJsonPat (pre ++ (mid ++ (fenceJsonPat ++
      '\n' :: (('{' :: (ms ++ ['}'])) ++ '\n' :: (fencePat ++ post))))) = true := by
    rw [containsSub, hfj]
    rfl
  have hdropS : (pre ++ (mid ++ (fenceJsonPat ++
      '\n' :: (('{' :: (ms ++ ['}'])) ++ '\n' :: (fencePat ++ post))))).drop
      (mid.length + pre.length + 7) =
      '\n' :: (('{' :: (ms ++ ['}'])) ++ '\n' :: (fencePat ++ post)) := by
    rw [show mid.length + pre.length + 7 = ((pre ++ mid) ++ fenceJsonPat).length from by
      simp only [List.length_append, show fenceJsonPat.length = 7 from rfl]
      omega]
    rw [show pre ++ (mid ++ (fenceJsonPat ++
        '\n' :: (('{' :: (ms ++ ['}'])) ++ '\n' :: (fencePat ++ post)))) =
        ((pre ++ mid) ++ fenceJsonPat) ++
          '\n' :: (('{' :: (ms ++ ['}'])) ++ '\n' :: (fencePat ++ post)) from by
      simp [List.append_assoc]]
    rw [List.drop_left]
  have hnb : '`' ∉ '\n' :: (('{' :: (ms ++ ['}'])) ++ ['\n']) := by
    intro hmem
    rcases List.mem_cons.mp hmem with h1 | h1
    · exact absurd h1 (by decide)
    rcases List.mem_append.mp h1 with h2 | h2
    · exact htxtB h2
    · exact absurd h2 (by decide)
  have hffind : findSub fencePat
      ('\n' :: (('{' :: (ms ++ ['}'])) ++ '\n' :: (fencePat ++ post))) =
      some (ms.length + 4) := by
    rw [show ('\n' :: (('{' :: (ms ++ ['}'])) ++ '\n' :: (fencePat ++ post))) =
        ('\n' :: (('{' :: (ms ++ ['}'])) ++ ['\n'])) ++ (fencePat ++ post) from by
      simp]
    rw [show fencePat = '`' :: "``".toList from rfl]
    rw [findSub_append_of_notMem _ _ hnb]
    rw [findSub_cons_self]
    simp only [Option.map_some', Option.some.injEq, List.length_cons,
      List.length_append, List.length_nil]
    omega
  have hslice : sliceL (pre ++ (mid ++ (fenceJsonPat ++
      '\n' :: (('{' :: (ms ++ ['}'])) ++ '\n' :: (fencePat ++ post)))))
      (mid.length + pre.length + 7)
      (mid.length + pre.length + 7 + (ms.length + 4)) =
      '\n' :: (('{' :: (ms ++ ['}'])) ++ ['\n']) := by
    rw [sliceL, hdropS]
    rw [show mid.length + pre.length + 7 + (ms.length + 4) -
        (mid.length + pre.length + 7) = ms.length + 4 from by omega]
    rw [show ('\n' :: (('{' :: (ms ++ ['}'])) ++ '\n' :: (fencePat ++ post))) =
        ('\n' :: (('{' :: (ms ++ ['}'])) ++ ['\n'])) ++ (fencePat ++ post) from by
      simp]
    rw [show ms.length + 4 = ('\n' :: (('{' :: (ms ++ ['}'])) ++ ['\n'])).length from by
      simp only [List.length_cons, List.length_append, List.length_nil]]
    rw [List.take_left]
  have hstrip2 : pyStrip ('\n' :: (('{' :: (ms ++ ['}'])) ++ ['\n'])) =
      '{' :: (ms ++ ['}']) := by
    rw [pyStrip]
    rw [show ('\n' :: (('{' :: (ms ++ ['}'])) ++ ['\n'])) =
        ['\n'] ++ '{' :: ((ms ++ ['}']) ++ ['\n']) from by simp]
    rw [lstripL_append_of_not_ws ['\n'] _ (by decide)]
    rw [show lstripL ['\n'] = [] from rfl, List.nil_append]
    rw [show ('{' :: ((ms ++ ['}']) ++ ['\n'])) =
        (('{' :: ms) ++ ['}']) ++ ['\n'] from by simp]
    rw [rstripL_append_of_not_ws ('{' :: ms) ['\n'] (by decide)]
    rw [show rstripL ['\n'] = [] from rfl, List.append_nil]
    simp
  have hfb : findSub ['{'] ('{' :: (ms ++ ['}'])) = some 0 := findSub_head_self _ _
  have hrf : rfindChar '}' ('{' :: (ms ++ ['}'])) = some (ms.length + 1) := by
    rw [show ('{' :: (ms ++ ['}'])) = ('{' :: ms) ++ ['}'] from by simp]
    rw [rfindChar_append_last]
    simp
  have hsl : sliceL ('{' :: (ms ++ ['}'])) 0 (ms.length + 1 + 1) =
      '{' :: (ms ++ ['}']) := by
    rw [sliceL, List.drop_zero, Nat.sub_zero]
    refine List.take_of_length_le ?_
    simp
  rw [OllamaGrader.parse_response]
  simp only [hstk, hcontains, if_true, hfj, Option.getD_some, hdropS, hffind,
    hslice, hstrip2, hfb, hrf, Nat.zero_lt_succ, if_true, hsl]
  exact json_loads_dumpsPayload p h

theorem C6_fenced_extract_witness :
    dumpsPayload [("q".toList,
        (⟨1, "d".toList, "f".toList, true⟩ : QuestionGrade))] =
      some "\x7b\"q\":\x7b\"score\":1,\"deduction_details\":\"d\",\"feedback\":\"f\",\"needs_review\":true\x7d\x7d".toList ∧
    OllamaGrader.parse_response
      ("Note: ".toList ++ (thinkOpenPat ++ ("hmm".toList ++ (thinkClosePat ++
        (" and ".toList ++ (fenceJsonPat ++
          '\n' :: ("\x7b\"q\":\x7b\"score\":1,\"deduction_details\":\"d\",\"feedback\":\"f\",\"needs_review\":true\x7d\x7d".toList ++
            '\n' :: (fencePat ++ " done".toList)))))))) =
      some (payloadJson [("q".toList,
        (⟨1, "d".toList, "f".toList, true⟩ : QuestionGrade))]) :=
  ⟨by rfl,
    C6_fenced_extract [("q".toList, (⟨1, "d".toList, "f".toList, true⟩ : QuestionGrade))]
      (by rfl) "Note: ".toList "hmm".toList " and ".toList " done".toList
      (by decide) (by decide) (by decide) (by decide) (by decide)
      (by decide) (by decide) (by decide) (by rfl)⟩

/-- C7: round-trip law for the response normalizers on a payload's own
clean serialization (its JSON text with no wrappers).  The Gemini
normalizer returns exactly the serialized object.  The Ollama normalizer
does so provided the serialization contains no reasoning-trace opening
marker and no fence marker; without that proviso the law fails for it
(see the counterexample). -/
theorem C7_round_trip (p : List (List Char × QuestionGrade)) {txt : List Char}
    (h : dumpsPayload p = some txt) :
    GeminiGrader.parse_response txt = some (payloadJson p) ∧
    (findSub thinkOpenPat txt = none → findSub fencePat txt = none →
      OllamaGrader.parse_response txt = some (payloadJson p)) :=
  ⟨gemini_parse_dump p h, fun hthink hfence => ollama_parse_dump p h hthink hfence⟩

theorem C7_round_trip_witness :
    dumpsPayload [("q2".toList,
        (⟨2, "dd".toList, "ff".toList, false⟩ : QuestionGrade))] =
      some "\x7b\"q2\":\x7b\"score\":2,\"deduction_details\":\"dd\",\"feedback\":\"ff\",\"needs_review\":false\x7d\x7d".toList ∧
    findSub thinkOpenPat "\x7b\"q2\":\x7b\"score\":2,\"deduction_details\":\"dd\",\"feedback\":\"ff\",\"needs_review\":false\x7d\x7d".toList = none ∧
    findSub fencePat "\x7b\"q2\":\x7b\"score\":2,\"deduction_details\":\"dd\",\"feedback\":\"ff\",\"needs_review\":false\x7d\x7d".toList = none ∧
    GeminiGrader.parse_response "\x7b\"q2\":\x7b\"score\":2,\"deduction_details\":\"dd\",\"feedback\":\"ff\",\"needs_review\":false\x7d\x7d".toList =
      some (payloadJson [("q2".toList,
        (⟨2, "dd".toList, "ff".toList, false⟩ : QuestionGrade))]) ∧
    OllamaGrader.parse_response "\x7b\"q2\":\x7b\"score\":2,\"deduction_details\":\"dd\",\"feedback\":\"ff\",\"needs_review\":false\x7d\x7d".toList =
      some (payloadJson [("q2".toList,
        (⟨2, "dd".toList, "ff".toList, false⟩ : QuestionGrade))]) :=
  ⟨by rfl, by rfl, by rfl,
    (C7_round_trip [("q2".toList,
      (⟨2, "dd".toList, "ff".toList, false⟩ : QuestionGrade))] (by rfl)).1,
    (C7_round_trip [("q2".toList,
      (⟨2, "dd".toList, "ff".toList, false⟩ : QuestionGrade))] (by rfl)).2
      (by rfl) (by rfl)⟩

set_option maxRecDepth 8000 in
/-- C7 counterexample: the Ollama normalizer does not satisfy the
round-trip law on every clean serialization: when a feedback string
contains a reasoning-trace block, the normalizer's trace-stripping
rewrites the payload text before parsing, so the parsed feedback differs
from the original object's. -/
theorem C7_counterexample :
    dumpsPayload [("question_4_1".toList,
        (⟨0, "ok".toList, "note <think>x</think> here".toList, false⟩ : QuestionGrade))] =
      some "\x7b\"question_4_1\":\x7b\"score\":0,\"deduction_details\":\"ok\",\"feedback\":\"note <think>x</think> here\",\"needs_review\":false\x7d\x7d".toList ∧
    OllamaGrader.parse_response "\x7b\"question_4_1\":\x7b\"score\":0,\"deduction_details\":\"ok\",\"feedback\":\"note <think>x</think> here\",\"needs_review\":false\x7d\x7d".toList ≠
      some (payloadJson [("question_4_1".toList,
        (⟨0, "ok".toList, "note <think>x</think> here".toList, false⟩ : QuestionGrade))]) := by
  refine ⟨by rfl, fun hEq => ?_⟩
  have h2 := congrArg (fun o => Option.map (fun j =>
    Option.bind (objField j "question_4_1".toList) (fun g2 =>
      strField g2 "feedback".toList)) o) hEq
  exact absurd h2 (by decide)

/-! ## Grader-loop lemmas -/

theorem prompt_ok (qs : List (String × String)) (h : hasAllPromptKeys qs = true) :
    ∃ t, create_grading_prompt qs = Except.ok t := by
  simp only [hasAllPromptKeys, Bool.and_eq_true, Option.isSome_iff_exists] at h
  obtain ⟨⟨⟨⟨⟨q1, e1⟩, ⟨q2, e2⟩⟩, ⟨q3, e3⟩⟩, ⟨q4, e4⟩⟩, ⟨q5, e5⟩⟩ := h
  refine ⟨[q1, q2, q3, q4, q5], ?_⟩
  rw [create_grading_prompt]
  simp only [e1, e2, e3, e4, e5]

theorem ollama_loop_success (oracle : ℕ → OllamaGrader.PostOutcome)
    (rem attempt : ℕ) {text rt : List Char} {j : Json}
    (ho : oracle attempt = OllamaGrader.PostOutcome.resp 200 text rt)
    (hne : rt.isEmpty = false) (hp : OllamaGrader.parse_response rt = some j) :
    OllamaGrader.grade_loop oracle (rem + 1) attempt = ((some j, none), 0, 1) := by
  rw [OllamaGrader.grade_loop, ho]
  simp [hne, hp]

theorem ollama_loop_fail_step (oracle : ℕ → OllamaGrader.PostOutcome)
    (rem attempt : ℕ) (hrem : rem ≠ 0)
    (hfail : OllamaGrader.attempt_fails (oracle attempt) = true) :
    OllamaGrader.grade_loop oracle (rem + 1) attempt =
      (match OllamaGrader.grade_loop oracle rem (attempt + 1) with
       | (r, sleeps, calls) => (r, sleeps + 1, calls + 1)) := by
  cases ho : oracle attempt with
  | resp status text rt =>
    rw [ho] at hfail
    simp only [OllamaGrader.attempt_fails] at hfail
    rw [OllamaGrader.grade_loop, ho]
    by_cases hs : status = 200
    · subst hs
      simp only [ne_eq, not_true_eq_false, Bool.false_eq_true, if_false] at hfail ⊢
      by_cases he : rt.isEmpty = true
      · simp [he, hrem]
      · simp only [Bool.not_eq_true] at he
        rw [he] at hfail
        simp only [Bool.false_eq_true, if_false] at hfail
        have hp : OllamaGrader.parse_response rt = none :=
          Option.isNone_iff_eq_none.mp hfail
        simp [he, hp, hrem]
    · simp [hs, hrem]
  | timeout =>
    rw [OllamaGrader.grade_loop, ho]
    simp [hrem]
  | exc e =>
    rw [OllamaGrader.grade_loop, ho]
    simp [hrem]

theorem ollama_loop_fail_last (oracle : ℕ → OllamaGrader.PostOutcome)
    (attempt : ℕ)
    (hfail : OllamaGrader.attempt_fails (oracle attempt) = true) :
    OllamaGrader.grade_loop oracle 1 attempt =
      ((none, some (OllamaGrader.attempt_error_msg attempt (oracle attempt))), 0, 1) := by
  cases ho : oracle attempt with
  | resp status text rt =>
    rw [ho] at hfail
    simp only [OllamaGrader.attempt_fails] at hfail
    rw [OllamaGrader.grade_loop, ho, OllamaGrader.attempt_error_msg]
    by_cases hs : status = 200
    · subst hs
      simp only [ne_eq, not_true_eq_false, Bool.false_eq_true, if_false] at hfail ⊢
      by_cases he : rt.isEmpty = true
      · simp [he]
      · simp only [Bool.not_eq_true] at he
        rw [he] at hfail
        simp only [Bool.false_eq_true, if_false] at hfail
        have hp : OllamaGrader.parse_response rt = none :=
          Option.isNone_iff_eq_none.mp hfail
        simp [he, hp]
    · simp [hs]
  | timeout =>
    rw [OllamaGrader.grade_loop, ho, OllamaGrader.attempt_error_msg]
    simp
  | exc e =>
    rw [OllamaGrader.grade_loop, ho, OllamaGrader.attempt_error_msg]
    simp

theorem gemini_loop_success (oracle : ℕ → GeminiGrader.GenOutcome)
    (rem attempt : ℕ) {t : List Char} {j : Json}
    (ho : oracle attempt = GeminiGrader.GenOutcome.text t)
    (hp : GeminiGrader.parse_response t = some j) :
    GeminiGrader.grade_loop oracle (rem + 1) attempt = ((some j, none), 0, 1) := by
  rw [GeminiGrader.grade_loop, ho]
  simp [hp]

theorem gemini_loop_fail_step (oracle : ℕ → GeminiGrader.GenOutcome)
    (rem attempt : ℕ) (hrem : rem ≠ 0)
    (hfail : GeminiGrader.attempt_fails (oracle attempt) = true) :
    GeminiGrader.grade_loop oracle (rem + 1) attempt =
      (match GeminiGrader.grade_loop oracle rem (attempt + 1) with
       | (r, sleeps, calls) => (r, sleeps + 1, calls + 1)) := by
  cases ho : oracle attempt with
  | text t =>
    rw [ho] at hfail
    simp only [GeminiGrader.attempt_fails] at hfail
    have hp : GeminiGrader.parse_response t = none :=
      Option.isNone_iff_eq_none.mp hfail
    rw [GeminiGrader.grade_loop, ho]
    simp [hp, hrem]
  | exc e =>
    rw [GeminiGrader.grade_loop, ho]
    simp [hrem]

theorem gemini_loop_fail_last (oracle : ℕ → GeminiGrader.GenOutcome)
    (attempt : ℕ)
    (hfail : GeminiGrader.attempt_fails (oracle attempt) = true) :
    GeminiGrader.grade_loop oracle 1 attempt =
      ((none, some (GeminiGrader.attempt_error_msg attempt (oracle attempt))), 0, 1) := by
  cases ho : oracle attempt with
  | text t =>
    rw [ho] at hfail
    simp only [GeminiGrader.attempt_fails] at hfail
    have hp : GeminiGrader.parse_response t = none :=
      Option.isNone_iff_eq_none.mp hfail
    rw [GeminiGrader.grade_loop, ho, GeminiGrader.attempt_error_msg]
    simp [hp]
  | exc e =>
    rw [GeminiGrader.grade_loop, ho, GeminiGrader.attempt_error_msg]
    simp

theorem startsWithL_append_right (p : List Char) :
    ∀ (l m : List Char), startsWithL p l = true → startsWithL p (l ++ m) = true := by
  induction p with
  | nil => intro l m _; rfl
  | cons a ps ih =>
    intro l m h
    cases l with
    | nil => simp [startsWithL] at h
    | cons b bs =>
      simp only [startsWithL, Bool.and_eq_true] at h
      rw [List.cons_append]
      simp only [startsWithL, Bool.and_eq_true]
      exact ⟨h.1, ih bs m h.2⟩

theorem containsSub_append_left (p : List Char) :
    ∀ (l m : List Char), containsSub p l = true → containsSub p (l ++ m) = true := by
  intro l
  induction l with
  | nil =>
    intro m h
    rw [containsSub, findSub] at h
    by_cases hp : p.isEmpty
    · rw [List.isEmpty_iff] at hp
      subst hp
      rw [List.nil_append]
      cases m <;> rfl
    · rw [if_neg hp] at h
      cases h
  | cons c cs ih =>
    intro m h
    rw [containsSub, findSub] at h
    rw [List.cons_append, containsSub, findSub]
    by_cases hsw : startsWithL p (c :: cs) = true
    · have hsw2 := startsWithL_append_right p (c :: cs) m hsw
      rw [List.cons_append] at hsw2
      rw [if_pos hsw2]
      rfl
    · rw [if_neg hsw] at h
      have h' : containsSub p cs = true := by
        rcases hf : findSub p cs with _ | i
        · rw [hf] at h
          simp at h
        · rw [containsSub, hf]
          rfl
      have h2 := ih m h'
      rw [containsSub] at h2
      by_cases hsw2 : startsWithL p (c :: (cs ++ m)) = true
      · rw [if_pos hsw2]
        rfl
      · rw [if_neg hsw2]
        rcases hf2 : findSub p (cs ++ m) with _ | i
        · rw [hf2] at h2
          cases h2
        · simp

/-- C3: a grading backend's `grade_student_submission` raises no
exception to its caller, provided the Ollama pre-flight server check
does not itself raise (its handler catches only `ConnectionError`) and
the query map contains all five prompt keys (`create_grading_prompt`
subscripts `student_queries['4.1']`–`['4.5']` outside every `try`
block).  Under those provisos, every provider error during the attempts
is caught internally and converted into a returned value. -/
theorem C3_no_uncaught_exceptions :
    (∀ (check : CheckOutcome) (oracle : ℕ → OllamaGrader.PostOutcome)
       (mn : String) (mr : ℕ) (qs : List (String × String)),
       (∀ e, check ≠ CheckOutcome.raised e) → hasAllPromptKeys qs = true →
       ∃ r, OllamaGrader.grade_student_submission check oracle mn mr qs =
         Except.ok r) ∧
    (∀ (oracle : ℕ → GeminiGrader.GenOutcome) (mr : ℕ)
       (qs : List (String × String)), hasAllPromptKeys qs = true →
       ∃ r, GeminiGrader.grade_student_submission oracle mr qs = Except.ok r) := by
  constructor
  · intro check oracle mn mr qs hcheck hkeys
    obtain ⟨t, ht⟩ := prompt_ok qs hkeys
    cases check with
    | resp s =>
      refine ⟨?_, ?_⟩
      · exact if s == 200 then OllamaGrader.grade_loop oracle mr 0
          else ((none, some (OllamaGrader.server_not_running_msg mn)), 0, 0)
      · rw [OllamaGrader.grade_student_submission, check_server]
        cases hsb : (s == 200)
        · rfl
        · simp only [ht]
          rfl
    | connError =>
      refine ⟨((none, some (OllamaGrader.server_not_running_msg mn)), 0, 0), ?_⟩
      rw [OllamaGrader.grade_student_submission, check_server]
    | raised e => exact absurd rfl (hcheck e)
  · intro oracle mr qs hkeys
    obtain ⟨t, ht⟩ := prompt_ok qs hkeys
    refine ⟨GeminiGrader.grade_loop oracle mr 0, ?_⟩
    rw [GeminiGrader.grade_student_submission, ht]

theorem C3_witness :
    (∀ e, CheckOutcome.connError ≠ CheckOutcome.raised e) ∧
    hasAllPromptKeys [("4.1", "a"), ("4.2", "b"), ("4.3", "c"),
      ("4.4", "d"), ("4.5", "e")] = true ∧
    (∃ r, OllamaGrader.grade_student_submission CheckOutcome.connError
      (fun _ => OllamaGrader.PostOutcome.timeout) "deepseek-r1" 3
      [("4.1", "a"), ("4.2", "b"), ("4.3", "c"), ("4.4", "d"), ("4.5", "e")] =
      Except.ok r) ∧
    (∃ r, GeminiGrader.grade_student_submission
      (fun _ => GeminiGrader.GenOutcome.exc "boom".toList) 3
      [("4.1", "a"), ("4.2", "b"), ("4.3", "c"), ("4.4", "d"), ("4.5", "e")] =
      Except.ok r) :=
  ⟨fun _ h => CheckOutcome.noConfusion h, by decide,
    C3_no_uncaught_exceptions.1 CheckOutcome.connError
      (fun _ => OllamaGrader.PostOutcome.timeout) "deepseek-r1" 3
      [("4.1", "a"), ("4.2", "b"), ("4.3", "c"), ("4.4", "d"), ("4.5", "e")]
      (fun _ h => CheckOutcome.noConfusion h) (by decide),
    C3_no_uncaught_exceptions.2
      (fun _ => GeminiGrader.GenOutcome.exc "boom".toList) 3
      [("4.1", "a"), ("4.2", "b"), ("4.3", "c"), ("4.4", "d"), ("4.5", "e")]
      (by decide)⟩

/-- C3 counterexample: the claim's unconditional form fails.  A
pre-flight check that raises anything but `ConnectionError` (e.g. a read
timeout) propagates out of `OllamaGrader.grade_student_submission`, and
a query map missing key `'4.1'` makes both backends raise `KeyError`
from `create_grading_prompt` outside the retry loop's `try`. -/
theorem C3_counterexample :
    (∃ e, OllamaGrader.grade_student_submission
      (CheckOutcome.raised "read timeout".toList)
      (fun _ => OllamaGrader.PostOutcome.timeout) "deepseek-r1" 3
      [("4.1", "a"), ("4.2", "b"), ("4.3", "c"), ("4.4", "d"), ("4.5", "e")] =
      Except.error e) ∧
    (∃ e, GeminiGrader.grade_student_submission
      (fun _ => GeminiGrader.GenOutcome.text "\x7b\x7d".toList) 3 [] =
      Except.error e) ∧
    (∃ e, OllamaGrader.grade_student_submission (CheckOutcome.resp 200)
      (fun _ => OllamaGrader.PostOutcome.resp 200 [] "\x7b\x7d".toList)
      "deepseek-r1" 3 [] = Except.error e) :=
  ⟨⟨"read timeout".toList, rfl⟩, ⟨"KeyError: 4.1".toList, rfl⟩,
    ⟨"KeyError: 4.1".toList, rfl⟩⟩

/-- C4: with `max_retries = 3`, failures on the first two attempts
followed by a success yield the successful result after exactly two
retry-delay sleeps and three provider calls; three failures yield the
failure pair whose reason is the message built for the third (last)
attempt's error, again with two sleeps (none after the last attempt)
and three calls. -/
theorem C4_retry_schedule (o0 o1 o2 o2f : OllamaGrader.PostOutcome)
    (text rt : List Char) (j : Json)
    (h0 : OllamaGrader.attempt_fails o0 = true)
    (h1 : OllamaGrader.attempt_fails o1 = true)
    (h2 : o2 = OllamaGrader.PostOutcome.resp 200 text rt)
    (hne : rt.isEmpty = false)
    (hp : OllamaGrader.parse_response rt = some j)
    (h2f : OllamaGrader.attempt_fails o2f = true)
    (qs : List (String × String)) (hkeys : hasAllPromptKeys qs = true)
    (mn : String) :
    OllamaGrader.grade_student_submission (CheckOutcome.resp 200)
      (fun n => if n = 0 then o0 else if n = 1 then o1 else o2) mn 3 qs =
      Except.ok ((some j, none), 2, 3) ∧
    OllamaGrader.grade_student_submission (CheckOutcome.resp 200)
      (fun n => if n = 0 then o0 else if n = 1 then o1 else o2f) mn 3 qs =
      Except.ok ((none, some (OllamaGrader.attempt_error_msg 2 o2f)), 2, 3) := by
  obtain ⟨t, ht⟩ := prompt_ok qs hkeys
  constructor
  · have l1 : OllamaGrader.grade_loop
        (fun n => if n = 0 then o0 else if n = 1 then o1 else o2) 1 2 =
        ((some j, none), 0, 1) :=
      @ollama_loop_success _ 0 2 text rt j (by simp [h2]) hne hp
    have l2 : OllamaGrader.grade_loop
        (fun n => if n = 0 then o0 else if n = 1 then o1 else o2) 2 1 =
        ((some j, none), 1, 2) := by
      rw [ollama_loop_fail_step _ 1 1 (by decide) (by simpa using h1), l1]
    have l3 : OllamaGrader.grade_loop
        (fun n => if n = 0 then o0 else if n = 1 then o1 else o2) 3 0 =
        ((some j, none), 2, 3) := by
      rw [show (3 : ℕ) = 2 + 1 from rfl,
        ollama_loop_fail_step _ 2 0 (by decide) (by simpa using h0), l2]
    rw [OllamaGrader.grade_student_submission, check_server]
    simp only [show ((200 : ℕ) == 200) = true from rfl, ht, l3]
  · have l1 : OllamaGrader.grade_loop
        (fun n => if n = 0 then o0 else if n = 1 then o1 else o2f) 1 2 =
        ((none, some (OllamaGrader.attempt_error_msg 2 o2f)), 0, 1) := by
      have := ollama_loop_fail_last
        (fun n => if n = 0 then o0 else if n = 1 then o1 else o2f) 2
        (by simpa using h2f)
      simpa using this
    have l2 : OllamaGrader.grade_loop
        (fun n => if n = 0 then o0 else if n = 1 then o1 else o2f) 2 1 =
        ((none, some (OllamaGrader.attempt_error_msg 2 o2f)), 1, 2) := by
      rw [ollama_loop_fail_step _ 1 1 (by decide) (by simpa using h1), l1]
    have l3 : OllamaGrader.grade_loop
        (fun n => if n = 0 then o0 else if n = 1 then o1 else o2f) 3 0 =
        ((none, some (OllamaGrader.attempt_error_msg 2 o2f)), 2, 3) := by
      rw [show (3 : ℕ) = 2 + 1 from rfl,
        ollama_loop_fail_step _ 2 0 (by decide) (by simpa using h0), l2]
    rw [OllamaGrader.grade_student_submission, check_server]
    simp only [show ((200 : ℕ) == 200) = true from rfl, ht, l3]

theorem C4_retry_schedule_witness :
    OllamaGrader.attempt_fails OllamaGrader.PostOutcome.timeout = true ∧
    OllamaGrader.attempt_fails
      (OllamaGrader.PostOutcome.resp 500 "err".toList []) = true ∧
    OllamaGrader.attempt_fails
      (OllamaGrader.PostOutcome.exc "boom".toList) = true ∧
    OllamaGrader.parse_response "\x7b\x7d".toList = some (Json.obj []) ∧
    (OllamaGrader.grade_student_submission (CheckOutcome.resp 200)
      (fun n => if n = 0 then OllamaGrader.PostOutcome.timeout
        else if n = 1 then OllamaGrader.PostOutcome.resp 500 "err".toList []
        else OllamaGrader.PostOutcome.resp 200 [] "\x7b\x7d".toList)
      "deepseek-r1" 3
      [("4.1", "a"), ("4.2", "b"), ("4.3", "c"), ("4.4", "d"), ("4.5", "e")] =
      Except.ok ((some (Json.obj []), none), 2, 3) ∧
    OllamaGrader.grade_student_submission (CheckOutcome.resp 200)
      (fun n => if n = 0 then OllamaGrader.PostOutcome.timeout
        else if n = 1 then OllamaGrader.PostOutcome.resp 500 "err".toList []
        else OllamaGrader.PostOutcome.exc "boom".toList)
      "deepseek-r1" 3
      [("4.1", "a"), ("4.2", "b"), ("4.3", "c"), ("4.4", "d"), ("4.5", "e")] =
      Except.ok ((none, some (OllamaGrader.attempt_error_msg 2
        (OllamaGrader.PostOutcome.exc "boom".toList))), 2, 3)) :=
  ⟨rfl, rfl, rfl, by rfl,
    C4_retry_schedule OllamaGrader.PostOutcome.timeout
      (OllamaGrader.PostOutcome.resp 500 "err".toList [])
      (OllamaGrader.PostOutcome.resp 200 [] "\x7b\x7d".toList)
      (OllamaGrader.PostOutcome.exc "boom".toList)
      [] "\x7b\x7d".toList (Json.obj []) rfl rfl rfl rfl (by rfl) rfl
      [("4.1", "a"), ("4.2", "b"), ("4.3", "c"), ("4.4", "d"), ("4.5", "e")]
      (by decide) "deepseek-r1"⟩

/-- C5: when the Ollama server is unreachable (the pre-flight check
returns `False`), `grade_student_submission` returns the failure pair at
once — independently of the query map and provider oracle, with zero
provider calls and zero sleeps, i.e. before prompt construction and
without entering the retry loop — and its reason contains the
remediation text for starting the server and pulling the model. -/
theorem C5_unreachable_server (check : CheckOutcome)
    (oracle : ℕ → OllamaGrader.PostOutcome) (mn : String) (mr : ℕ)
    (qs : List (String × String))
    (h : check_server check = Except.ok false) :
    OllamaGrader.grade_student_submission check oracle mn mr qs =
      Except.ok ((none, some (OllamaGrader.server_not_running_msg mn)), 0, 0) ∧
    containsSub "Start it with: ollama serve".toList
      (OllamaGrader.server_not_running_msg mn) = true ∧
    containsSub "ollama pull".toList
      (OllamaGrader.server_not_running_msg mn) = true := by
  refine ⟨?_, ?_, ?_⟩
  · rw [OllamaGrader.grade_student_submission, h]
  · rw [OllamaGrader.server_not_running_msg]
    exact containsSub_append_left _ _ _ (by decide)
  · rw [OllamaGrader.server_not_running_msg]
    exact containsSub_append_left _ _ _ (by decide)

theorem C5_unreachable_server_witness :
    check_server CheckOutcome.connError = Except.ok false ∧
    (OllamaGrader.grade_student_submission CheckOutcome.connError
      (fun _ => OllamaGrader.PostOutcome.timeout) "deepseek-r1" 3 [] =
      Except.ok ((none,
        some (OllamaGrader.server_not_running_msg "deepseek-r1")), 0, 0) ∧
    containsSub "Start it with: ollama serve".toList
      (OllamaGrader.server_not_running_msg "deepseek-r1") = true ∧
    containsSub "ollama pull".toList
      (OllamaGrader.server_not_running_msg "deepseek-r1") = true) :=
  ⟨rfl, C5_unreachable_server CheckOutcome.connError
    (fun _ => OllamaGrader.PostOutcome.timeout) "deepseek-r1" 3 [] rfl⟩
